import Mathlib

/-!
# A verification development for `cobaya/input.py`

This file is a shallow embedding in Lean 4 of the configuration-resolution core of
the `cobaya` repository (the file `cobaya/input.py`): the defaults-resolution and
merge algorithm (`update_info`), the parameter-info merger (`merge_params_info`),
the prior/parameter default mergers (`merge_default_params_info` and the prior loop
of `update_info`), the equivalence checker (`is_equal_info`), the resume value
selector (`get_preferred_old_values`) and the class-hierarchy defaults merger
(`HasDefaults.get_defaults`).

## Modelling conventions

* Python values stored in configuration dictionaries are modelled by the inductive
  type `Val`.  Python `dict`s are modelled as insertion-ordered association lists
  (`PyDict`), with Python's assignment/`update`/`pop` semantics (`dset`, `dupdate`,
  `derase`): assignment to an existing key keeps its position, a new key is
  appended.  Runtime Python dicts never hold duplicate keys; `derase` removes every
  binding of a key, which agrees with `dict.pop` on duplicate-free dicts.
* Python `==` on these values ignores dict ordering; it is modelled by `pyEq`,
  which compares canonical forms (`canon`: dict entries sorted by key).
* Python `set`s of strings have unspecified iteration order; wherever the source
  materialises a set into a list (`list(set(...))`), the embedding uses the
  canonical sorted, duplicate-free list `strSet`.  Within one process Python's set
  order is a function of the set's contents, so equality facts are preserved.
* Exceptions are modelled by `Except PyErr`; `LoggedError`s that the source
  formats into messages are kept as structured payloads (e.g.
  `PyErr.unrecognizedOptions`).
* The component registry, external to this file's source (`cobaya.tools` /
  component classes), is a parameter (`Registry`), following the spec's external
  interface contract: a class lookup that fails does so with `PyErr.importError`
  ("not found"), matching the `except ImportError` handlers in the source.
* Functions of this repository that `input.py` imports from files not included
  under `src/` (`expand_info_param`, `fuzzy_match`, `str_to_list`, the string
  constants of `cobaya.conventions`) are modelled from the spec; each such
  definition carries a doc comment starting `Modelled from the spec:`.
-/

set_option maxHeartbeats 1000000

/-- Python values as they occur in cobaya configuration dictionaries: `None`,
booleans, integers, floats (kept exact as rationals; they are inert data here),
strings, lists, dicts, and opaque references to external classes (`vclass`) and
other external callables (`vfunc`), distinguished because `update_info` treats
`inspect.isclass` values differently from other externals. -/
inductive Val where
  | vnone  : Val
  | vbool  : Bool → Val
  | vint   : Int → Val
  | vrat   : Rat → Val
  | vstr   : String → Val
  | vlist  : List Val → Val
  | vdict  : List (String × Val) → Val
  | vclass : Nat → Val
  | vfunc  : Nat → Val

mutual
/-- Boolean structural equality on `Val` (nested, so not derivable). -/
def valBEq : Val → Val → Bool
  | .vnone, .vnone => true
  | .vbool a, .vbool b => a == b
  | .vint a, .vint b => a == b
  | .vrat a, .vrat b => a == b
  | .vstr a, .vstr b => a == b
  | .vlist a, .vlist b => valListBEq a b
  | .vdict a, .vdict b => valPairsBEq a b
  | .vclass a, .vclass b => a == b
  | .vfunc a, .vfunc b => a == b
  | _, _ => false

/-- `valBEq` on lists of values. -/
def valListBEq : List Val → List Val → Bool
  | [], [] => true
  | a :: as, b :: bs => valBEq a b && valListBEq as bs
  | _, _ => false

/-- `valBEq` on association-list entries. -/
def valPairsBEq : List (String × Val) → List (String × Val) → Bool
  | [], [] => true
  | (k, v) :: ps, (k', v') :: qs => k == k' && valBEq v v' && valPairsBEq ps qs
  | _, _ => false
end

theorem val_sizeOf_pos (a : Val) : 0 < sizeOf a := by
  cases a <;> simp_arith

theorem valBEq_sound_n :
    ∀ (n : Nat) (a b : Val), sizeOf a ≤ n → valBEq a b = true → a = b := by
  intro n
  induction n with
  | zero =>
    intro a b ha _
    exact absurd ha (Nat.not_le.mpr (val_sizeOf_pos a))
  | succ n ih =>
    have ihL : ∀ (as bs : List Val), (∀ a ∈ as, sizeOf a ≤ n) →
        valListBEq as bs = true → as = bs := by
      intro as
      induction as with
      | nil =>
        intro bs _ h
        cases bs with
        | nil => rfl
        | cons b bs => simp [valListBEq] at h
      | cons a as ihas =>
        intro bs hsz h
        cases bs with
        | nil => simp [valListBEq] at h
        | cons b bs =>
          simp only [valListBEq, Bool.and_eq_true] at h
          have e1 := ih a b (hsz a (by simp)) h.1
          have e2 := ihas bs (fun x hx => hsz x (by simp [hx])) h.2
          rw [e1, e2]
    have ihP : ∀ (ps qs : List (String × Val)), (∀ p ∈ ps, sizeOf p.2 ≤ n) →
        valPairsBEq ps qs = true → ps = qs := by
      intro ps
      induction ps with
      | nil =>
        intro qs _ h
        cases qs with
        | nil => rfl
        | cons q qs => simp [valPairsBEq] at h
      | cons p ps ihps =>
        intro qs hsz h
        cases qs with
        | nil => simp [valPairsBEq] at h
        | cons q qs =>
          cases p with
          | mk k v =>
            cases q with
            | mk k' v' =>
              simp only [valPairsBEq, Bool.and_eq_true] at h
              have e1 : k = k' := by simpa using h.1.1
              have e2 : v = v' := ih v v' (hsz (k, v) (by simp)) h.1.2
              have e3 : ps = qs := ihps qs (fun x hx => hsz x (by simp [hx])) h.2
              rw [e1, e2, e3]
    intro a b hs hb
    cases a <;> cases b <;>
      first
      | rfl
      | exact Bool.noConfusion hb
      | exact congrArg _ (eq_of_beq hb)
      | (rename_i as bs
         exact congrArg Val.vlist (ihL as bs (fun x hx => by
           have h1 := List.sizeOf_lt_of_mem hx
           have h2 : sizeOf (Val.vlist as) = 1 + sizeOf as := by simp
           omega) hb))
      | (rename_i ps qs
         exact congrArg Val.vdict (ihP ps qs (fun p hp => by
           have h1 := List.sizeOf_lt_of_mem hp
           have h2 : sizeOf (Val.vdict ps) = 1 + sizeOf ps := by simp
           have h3 : sizeOf p.2 < sizeOf p := by
             cases p with
             | mk k v => simp_arith
           omega) hb))

theorem valBEq_refl : ∀ (a : Val), valBEq a a = true := by
  intro a
  have : ∀ (n : Nat) (a : Val), sizeOf a ≤ n → valBEq a a = true := by
    intro n
    induction n with
    | zero =>
      intro a ha
      exact absurd ha (Nat.not_le.mpr (val_sizeOf_pos a))
    | succ n ih =>
      have ihL : ∀ (as : List Val), (∀ a ∈ as, sizeOf a ≤ n) →
          valListBEq as as = true := by
        intro as
        induction as with
        | nil => intro _; rfl
        | cons a as ihas =>
          intro hsz
          simp only [valListBEq, Bool.and_eq_true]
          exact ⟨ih a (hsz a (by simp)), ihas (fun x hx => hsz x (by simp [hx]))⟩
      have ihP : ∀ (ps : List (String × Val)), (∀ p ∈ ps, sizeOf p.2 ≤ n) →
          valPairsBEq ps ps = true := by
        intro ps
        induction ps with
        | nil => intro _; rfl
        | cons p ps ihps =>
          intro hsz
          cases p with
          | mk k v =>
            simp only [valPairsBEq, Bool.and_eq_true]
            exact ⟨⟨by simp, ih v (hsz (k, v) (by simp))⟩,
                   ihps (fun x hx => hsz x (by simp [hx]))⟩
      intro a hs
      cases a <;>
        first
        | rfl
        | exact beq_self_eq_true _
        | (rename_i as
           exact ihL as (fun x hx => by
             have h1 := List.sizeOf_lt_of_mem hx
             have h2 : sizeOf (Val.vlist as) = 1 + sizeOf as := by simp
             omega))
        | (rename_i ps
           exact ihP ps (fun p hp => by
             have h1 := List.sizeOf_lt_of_mem hp
             have h2 : sizeOf (Val.vdict ps) = 1 + sizeOf ps := by simp
             have h3 : sizeOf p.2 < sizeOf p := by
               cases p with
               | mk k v => simp_arith
             omega))
  exact this (sizeOf a) a (Nat.le_refl _)

theorem valBEq_iff (a b : Val) : valBEq a b = true ↔ a = b := by
  constructor
  · exact valBEq_sound_n (sizeOf a) a b (Nat.le_refl _)
  · intro h; rw [h]; exact valBEq_refl b

instance : DecidableEq Val :=
  fun a b => decidable_of_iff (valBEq a b = true) (valBEq_iff a b)

/-- A Python dict with string keys: an insertion-ordered association list. -/
abbrev PyDict := List (String × Val)

/-- First binding of a key (Python dict lookup; runtime dicts are duplicate-free). -/
def dfind? : PyDict → String → Option Val
  | [], _ => none
  | (k', v) :: d, k => if k' = k then some v else dfind? d k

/-- `d.get(k, dflt)`. -/
def dgetD (d : PyDict) (k : String) (dflt : Val) : Val :=
  (dfind? d k).getD dflt

/-- `k in d`. -/
def dcontains (d : PyDict) (k : String) : Bool :=
  (dfind? d k).isSome

/-- Python dict assignment `d[k] = v`: an existing key keeps its position, a new
key is appended at the end. -/
def dset : PyDict → String → Val → PyDict
  | [], k, v => [(k, v)]
  | (k', v') :: d, k, v => if k' = k then (k, v) :: d else (k', v') :: dset d k v

/-- `d.update(e)`: assign each binding of `e` into `d`, in order. -/
def dupdate (d e : PyDict) : PyDict :=
  e.foldl (fun acc kv => dset acc kv.1 kv.2) d

/-- `d.pop(k, None)`: drop the bindings of `k` (on duplicate-free dicts this is
exactly Python's single-binding removal), keeping the order of the rest. -/
def derase (d : PyDict) (k : String) : PyDict :=
  d.filter (fun kv => kv.1 ≠ k)

/-- `list(d)`: the keys in insertion order. -/
def dictKeys (d : PyDict) : List String :=
  d.map Prod.fst

/-- `list(dict.fromkeys(l))`: drop duplicates keeping each first occurrence. -/
def dedupFirst : List String → List String
  | [] => []
  | k :: ks => k :: (dedupFirst ks).filter (fun k' => k' ≠ k)

/-- Lexicographic code-point order on character lists (how Python sorts
strings).  Written structurally so that it evaluates inside the kernel, which
the library order on `String` does not. -/
def charListLe : List Char → List Char → Bool
  | [], _ => true
  | _ :: _, [] => false
  | a :: as, b :: bs =>
    if a.val.toNat < b.val.toNat then true
    else if b.val.toNat < a.val.toNat then false
    else charListLe as bs

/-- `a <= b` on strings, by code points. -/
def strLe (a b : String) : Bool := charListLe a.data b.data

/-- Insert a string into a sorted list of strings. -/
def insStr (s : String) : List String → List String
  | [] => [s]
  | t :: ts => if strLe s t then s :: t :: ts else t :: insStr s ts

/-- Insertion sort of strings. -/
def sortStr : List String → List String
  | [] => []
  | s :: ss => insStr s (sortStr ss)

/-- Canonical representation of a Python `set` of strings: sorted and
duplicate-free.  Python's set iteration order is a function of the set's
contents within one process, so modelling it by this canonical order preserves
all equality facts the source relies on. -/
def strSet (l : List String) : List String :=
  sortStr (dedupFirst l)

/-- Insert a key-value pair into a list sorted by key (used by `canon`). -/
def insPair (p : String × Val) : List (String × Val) → List (String × Val)
  | [] => [p]
  | q :: qs => if strLe p.1 q.1 then p :: q :: qs else q :: insPair p qs

/-- Sort an association list by key (used by `canon`). -/
def sortPairs : List (String × Val) → List (String × Val)
  | [] => []
  | p :: ps => insPair p (sortPairs ps)

/-- Drop duplicate keys keeping the first binding (used by `canon`). -/
def dedupKeys : List (String × Val) → List (String × Val)
  | [] => []
  | p :: ps => p :: (dedupKeys ps).filter (fun q => q.1 ≠ p.1)

mutual
/-- Canonical form of a value: dict entries are recursively canonicalised,
de-duplicated and sorted by key, so that structural equality of canonical forms
is Python's order-insensitive `==` on dicts. -/
def canon : Val → Val
  | .vlist l => .vlist (canonList l)
  | .vdict d => .vdict (sortPairs (dedupKeys (canonPairs d)))
  | v => v

/-- `canon` mapped over a list. -/
def canonList : List Val → List Val
  | [] => []
  | v :: vs => canon v :: canonList vs

/-- `canon` mapped over dict entries. -/
def canonPairs : List (String × Val) → List (String × Val)
  | [] => []
  | (k, v) :: ps => (k, canon v) :: canonPairs ps
end

/-- Python `==` on configuration values: structural equality except that dicts
compare as unordered key-value maps. -/
def pyEq (a b : Val) : Bool :=
  decide (canon a = canon b)

/-- Python truthiness of a value. -/
def truthy : Val → Bool
  | .vnone => false
  | .vbool b => b
  | .vint n => n ≠ 0
  | .vrat q => q ≠ 0
  | .vstr s => s ≠ ""
  | .vlist l => l ≠ []
  | .vdict d => d ≠ []
  | .vclass _ => true
  | .vfunc _ => true

/-- Read a value as a dict; non-dicts (which Python code reaching this point
would reject with a runtime error) read as empty. -/
def asDict : Val → PyDict
  | .vdict d => d
  | _ => []

/-- The strings among a list of values. -/
def strsOf (l : List Val) : List String :=
  l.filterMap (fun v => match v with | .vstr s => some s | _ => none)

/-! ## Spec-modelled helpers

`cobaya/input.py` imports a handful of small helpers from repository files that
are not part of the excerpted source (`cobaya.parameterization`,
`cobaya.tools`, `cobaya.conventions`).  They are modelled here from the spec. -/

/-- Modelled from the spec: the block categories ("kinds") of pluggable
components, `cobaya.conventions.kinds` (not under `src/`).  The spec's §3 lists
theory/likelihood/sampler as the component categories (`prior` and `params` are
handled as dedicated top-level blocks by the resolver, not as kinds). -/
def kindsList : List String := ["theory", "likelihood", "sampler"]

/-- Modelled from the spec: `expand_info_param` (`cobaya.parameterization`, not
under `src/`).  Expands a parameter's shorthand form to the structured
ParameterInfo mapping: a bare (non-mapping) value `v` becomes `{value: v}` and
`null` becomes `{}`.  Per §4.3 the `default_derived` flag is applied "only to
this base layer": when a base-layer default is supplied (`dd = some b`) and the
parameter specifies none of `prior`/`value`/`derived`, its `derived` flag is set
to that default; no flag is defaulted on other layers (`dd = none`). -/
def expand_info_param (v : Val) (dd : Option Bool) : PyDict :=
  let d : PyDict :=
    match v with
    | .vnone => []
    | .vdict d => d
    | x => [("value", x)]
  match dd with
  | none => d
  | some b =>
    if ¬ dcontains d "prior" ∧ ¬ dcontains d "value" ∧ ¬ dcontains d "derived" then
      dset d "derived" (.vbool b)
    else d

/-- Modelled from the spec: `str_to_list` (`cobaya.tools`, not under `src/`).
A bare string becomes a one-element list; a list is returned as is (the spec's
§4.2 "a `type` tag (single value or list)", §4.1 rename values "one-or-many
aliases").  Other values, which the callers never produce, read as empty. -/
def str_to_list : Val → List Val
  | .vstr s => [.vstr s]
  | .vlist l => l
  | _ => []

/-- Modelled from the spec: `fuzzy_match` (`cobaya.tools`, not under `src/`).
Returns up to `n` fuzzy-matched suggestions for `s` drawn from `available`
(§4.2.c).  The similarity measure is unspecified by the spec; it is modelled as
"shares the first character", truncated to `n` candidates. -/
def fuzzy_match (s : String) (available : List String) (n : Nat) : List String :=
  (available.filter (fun a => a.take 1 = s.take 1 ∧ a ≠ s)).take n

/-- Modelled from the spec: `_get_chi2_name` (`cobaya.conventions`, not under
`src/`): the aggregated chi-squared parameter name derived from a likelihood
`type` tag (§4.2.5 "named and labeled deterministically from the type"). -/
def get_chi2_name (t : String) : String := "chi2__" ++ t

/-- Modelled from the spec: `_get_chi2_label` (`cobaya.conventions`, not under
`src/`): the latex label derived from a likelihood `type` tag. -/
def get_chi2_label (t : String) : String := "\\chi^2_\x7b\\rm " ++ t ++ "\x7d"

/-! ## The parameter-info merger (`merge_params_info`, `input.py` lines 389-423) -/

/-- The `prior` row of the `incompatibilities` rule (lines 409, 414-417): if the
new layer's expanded info sets `prior`, pop `value`, `derived`, `min`, `max`
from the accumulated record. -/
def clearPrior (e r : PyDict) : PyDict :=
  if dcontains e "prior" then
    derase (derase (derase (derase r "value") "derived") "min") "max"
  else r

/-- The `value` row of the `incompatibilities` rule (lines 410-411, 414-417). -/
def clearValue (e r : PyDict) : PyDict :=
  if dcontains e "value" then derase (derase (derase r "prior") "ref") "proposal"
  else r

/-- The `derived` row of the `incompatibilities` rule (lines 412-417). -/
def clearDerived (e r : PyDict) : PyDict :=
  if dcontains e "derived" then
    derase (derase (derase (derase r "prior") "drop") "ref") "proposal"
  else r

/-- The body of `merge_params_info`'s inner loop for one parameter of a
non-base layer (`input.py` lines 404-417): expand the new info, overlay it on
the accumulated record, then apply the incompatibility rule in the order of the
`incompatibilities` dict literal (`prior`, then `value`, then `derived`). -/
def stepParam (curp : PyDict) (vp : Val) : PyDict :=
  clearDerived (expand_info_param vp none)
    (clearValue (expand_info_param vp none)
      (clearPrior (expand_info_param vp none) (dupdate curp (expand_info_param vp none))))

/-- Processing of one non-base layer (`input.py` lines 400-417): for each
parameter of the layer, create an empty record if new, then `stepParam`.
An empty layer (skipped by `if not new_info: continue`) contributes nothing. -/
def mergeLayer (current : PyDict) (new_info : PyDict) : PyDict :=
  new_info.foldl
    (fun cur pv => dset cur pv.1 (Val.vdict (stepParam (asDict (dgetD cur pv.1 (Val.vdict []))) pv.2)))
    current

/-- `merge_params_info` (`input.py` lines 389-423): expand the base layer with
`default_derived`, merge each later layer with `mergeLayer`, then re-sort so
that the rightmost layer's key order takes precedence (reverse-layer
concatenation, first-occurrence dedup; lines 418-422).  Python raises on an
empty list of layers (`params_infos[0]`); callers always pass two layers. -/
def merge_params_info (params_infos : List PyDict) (default_derived : Bool) : PyDict :=
  let current0 : PyDict :=
    (params_infos.headD []).map (fun pv => (pv.1, Val.vdict (expand_info_param pv.2 (some default_derived))))
  let current := (params_infos.drop 1).foldl mergeLayer current0
  let new_order := dedupFirst ((params_infos.reverse.map dictKeys).flatten)
  new_order.filterMap (fun p => (dfind? current p).map (fun v => (p, v)))

/-! ## Error type and the default mergers -/

/-- The exceptions raised (or caught) by the embedded functions.  The source's
`LoggedError`s with formatted messages are kept structured: `unrecognizedOptions`
carries, per unrecognized option, the fuzzy-matched suggestion list
(`input.py` lines 298-313); `duplicatePriorName` is the error of line 323-325;
`inconsistentParamDefault` the error of lines 378-383.  `importError` is the
"class not found" registry failure caught by the `except ImportError` handlers;
`typeError` stands for the `TypeError`/`AttributeError` family Python raises on
non-mapping values in mapping positions; `keyError` for `KeyError`. -/
inductive PyErr where
  | loggedError (msg : String)
  | unrecognizedOptions (block component : String) (alts : List (String × List String))
  | duplicatePriorName (name : String)
  | inconsistentParamDefault (p : String)
  | importError
  | typeError
  | keyError (k : String)
  deriving DecidableEq

/-- One step of the prior-merging loop of `update_info` (lines 322-326):
`if updated_info[prior].get(name, prior) != prior: raise; updated_info[prior][name] = prior`. -/
def addPrior (acc : PyDict) (np : String × Val) : Except PyErr PyDict :=
  if pyEq (dgetD acc np.1 np.2) np.2 then .ok (dset acc np.1 np.2)
  else .error (.duplicatePriorName np.1)

/-- The prior-merging loop of `update_info` (lines 321-326): fold every
component-contributed prior block into the accumulating resolved prior block. -/
def merge_priors (base : PyDict) (contribs : List PyDict) : Except PyErr PyDict :=
  contribs.foldlM (fun acc contrib => contrib.foldlM addPrior acc) base

/-- One step of `merge_default_params_info` (lines 375-385): a parameter already
present must carry equal info, else a hard error; then overwrite. -/
def addDefaultParam (merged : PyDict) (pinfo : String × Val) : Except PyErr PyDict :=
  match dfind? merged pinfo.1 with
  | some prev =>
    if pyEq pinfo.2 prev then .ok (dset merged pinfo.1 pinfo.2)
    else .error (.inconsistentParamDefault pinfo.1)
  | none => .ok (dset merged pinfo.1 pinfo.2)

/-- `merge_default_params_info` (`input.py` lines 368-386): merge the per-component
default parameter blocks, checking that shared parameters carry equal info. -/
def merge_default_params_info (defaults : PyDict) : Except PyErr PyDict :=
  defaults.foldlM (fun acc comp => (asDict comp.2).foldlM addDefaultParam acc) []

/-- The aggregated chi-squared parameter record assigned for a type tag
(line 227): `{latex: chi2-label, derived: True}`. -/
def chi2Record (t : String) : Val :=
  Val.vdict [("latex", Val.vstr (get_chi2_label t)), ("derived", Val.vbool true)]

/-- `add_aggregated_chi2_params` (`input.py` lines 225-228): for each type tag in
sorted order, assign the aggregated chi-squared parameter. -/
def add_aggregated_chi2_params (param_info : PyDict) (all_types : List String) : PyDict :=
  (sortStr (dedupFirst all_types)).foldl
    (fun d t => dset d (get_chi2_name t) (chi2Record t)) param_info

/-! ## The component registry (external collaborator, spec §6) -/

/-- The resume-preference declarations of a resolved component class: the
`_at_resume_prefer_new` / `_at_resume_prefer_old` option-name sets consulted by
`is_equal_info` (line 523) and `get_preferred_old_values` (line 557). -/
structure PyClass where
  preferNew : List String
  preferOld : List String

/-- The component registry, the external collaborator of spec §6.

* `getDefaultInfo kind name class_name component_path input_options` models
  `get_resolved_class` + `cls.get_defaults(...)` + `cls.get_annotations()` as a
  single lookup: it returns the resolved default options and the keys of the
  declared-but-undefined annotation names (the two outputs of `get_default_info`,
  lines 201-222, with `return_undefined_annotations=True`).
* `extClassDefaultInfo` is the same lookup for an external class passed by
  reference (line 277-280).
* `baseClassDefaults kind` models `component_base_classes[kind].get_defaults()`
  (lines 282-283), an always-available total lookup.
* `resolveClass name kind component_path class_name` models
  `get_resolved_class` alone, as used by `is_equal_info` (lines 519-521) and
  `get_preferred_old_values` (lines 554-556); a "not found" failure is
  `PyErr.importError`, matching the `except ImportError` handlers. -/
structure Registry where
  getDefaultInfo : String → String → Option Val → Option Val → PyDict →
    Except PyErr (PyDict × List String)
  extClassDefaultInfo : Nat → String → PyDict → Except PyErr (PyDict × List String)
  baseClassDefaults : String → PyDict
  resolveClass : String → String → Option Val → Option Val → Except PyErr PyClass

/-! ## `update_info` (`input.py` lines 231-365) -/

/-- `get_used_components` (lines 169-198) specialised to a single info argument,
as called by `update_info` (line 243): for each kind, the component names of the
kind's block in first-seen order; falsy blocks (`or []`) contribute nothing and
empty kinds are dropped.  A truthy non-mapping block makes `update_info` raise a
"not well formatted" `LoggedError` (for non-iterables at lines 188-192, for
str/list blocks at the equivalent check of lines 253-257); both are modelled as
the immediate `loggedError` here.  `usedForKind` is the body of the
`for kind in kinds` loop for one kind. -/
def usedForKind (info : PyDict) (kind : String) : Except PyErr (List String) :=
  let v := dgetD info kind Val.vnone
  if truthy v then
    match v with
    | Val.vdict d => .ok (dedupFirst (dictKeys d))
    | _ => .error (.loggedError
        ("Your input info is not well formatted at the '" ++ kind ++ "' block."))
  else .ok []

/-- `get_used_components` over the three kinds, in the order of the `kinds`
tuple; empty kinds are dropped (line 197). -/
def usedComponents (info : PyDict) : Except PyErr (List (String × List String)) := do
  let t ← usedForKind info "theory"
  let l ← usedForKind info "likelihood"
  let s ← usedForKind info "sampler"
  pure ([("theory", t), ("likelihood", l), ("sampler", s)].filter (fun e => ¬ e.2.isEmpty))

/-- The reserved option names of lines 294-295 (string constants of
`cobaya.conventions`, not under `src/`; modelled from the spec's §3
ComponentOptions list: external-function marker, explicit-class-name marker,
provides/requires declarations, rename table, input/output parameter lists,
component search path, aliases). -/
def reservedOpts : List String :=
  ["external", "class_name", "provides", "requires", "renames",
   "input_params", "output_params", "component_path", "aliases"]

/-- The unrecognized-option validation of `update_info` (lines 294-313): any
entry option outside reserved ∪ resolved-default-keys ∪ annotation-names is a
hard error carrying up to 3 fuzzy-matched suggestions per unrecognized option,
drawn from `{external, class_name, requires, renames} ∪ default option keys`. -/
def checkOptions (block component : String) (entryD default_class_info : PyDict)
    (annots : List String) : Except PyErr Unit :=
  let notRecognized := dedupFirst ((dictKeys entryD).filter
      (fun k => k ∉ reservedOpts ∧ k ∉ dictKeys default_class_info ∧ k ∉ annots))
  if notRecognized.isEmpty then .ok ()
  else
    let available := strSet (["external", "class_name", "requires", "renames"] ++
      dictKeys default_class_info)
    .error (.unrecognizedOptions block component
      (notRecognized.map (fun o => (o, fuzzy_match o available 3))))

/-- `get_default_info` (lines 201-222): any failure of the registry lookup or of
the class's defaults computation is wrapped in a `LoggedError` ("Failed to get
defaults for component or class"), so registry failures are fatal during
resolution. -/
def get_default_info_wrap (r : Except PyErr (PyDict × List String)) :
    Except PyErr (PyDict × List String) :=
  match r with
  | .ok x => .ok x
  | .error _ => .error (.loggedError "Failed to get defaults for component or class")

/-- The per-component body of `update_info`'s main loop (lines 249-317):
normalise the entry (`None` becomes `{}`, a bare class/callable/non-mapping
becomes `{external: value}`), resolve the default options (external class /
bare callable / registry lookup), validate recognized options, and return the
merged options together with the entry's default `params` and `prior`
sub-blocks. -/
def processComponent (reg : Registry) (block : String) (input_block : PyDict)
    (component : String) : Except PyErr (PyDict × Val × Val) := do
  let entry0 := dgetD input_block component Val.vnone
  let entryD : PyDict :=
    match (if truthy entry0 then entry0 else Val.vdict []) with
    | .vdict d => d
    | x => [("external", x)]
  let ext := dgetD entryD "external" Val.vnone
  let (default_class_info, annots) ←
    if truthy ext then
      match ext with
      | .vclass n => get_default_info_wrap (reg.extClassDefaultInfo n block entryD)
      | _ => pure (reg.baseClassDefaults block, ([] : List String))
    else
      get_default_info_wrap
        (reg.getDefaultInfo block component (dfind? entryD "class_name")
          (dfind? entryD "component_path") entryD)
  let _ ← checkOptions block component entryD default_class_info annots
  pure (dupdate default_class_info entryD,
        dgetD default_class_info "params" (Val.vdict []),
        dgetD default_class_info "prior" (Val.vdict []))

/-- The main loop of `update_info` (lines 245-317): build the updated kind
blocks and record each component's default `params` and `prior` sub-blocks
(`default_params_info`, `default_prior_info`) for the later global merges. -/
def resolveBlocks (reg : Registry) (info : PyDict) :
    Except PyErr (PyDict × PyDict × PyDict) := do
  let comps ← usedComponents info
  comps.foldlM (fun acc kc => do
      let input_block := asDict (dgetD info kc.1 Val.vnone)
      let res ← kc.2.foldlM (fun (bacc : PyDict × PyDict × PyDict) c => do
          let r ← processComponent reg kc.1 input_block c
          pure (dset bacc.1 c (Val.vdict r.1),
                dset bacc.2.1 c r.2.1,
                dset bacc.2.2 c r.2.2))
        (([] : PyDict), acc.2.1, acc.2.2)
      pure (dset acc.1 kc.1 (Val.vdict res.1), res.2.1, res.2.2))
    (([] : PyDict), ([] : PyDict), ([] : PyDict))

/-- The aggregated chi-squared type collection of `update_info` (lines 334-336):
the set of `type` tags over the updated likelihood block's component options
(string tags; `str_to_list` of `like_info.get("type", []) or []`). -/
def likTypes (likBlock : PyDict) : List String :=
  strSet ((likBlock.map (fun c =>
    let t := dgetD (asDict c.2) "type" (Val.vlist [])
    strsOf (str_to_list (if truthy t then t else Val.vlist [])))).flatten)

/-- `renames_flat` (line 350): each rename-table row as the set
`{canonical} ∪ aliases`. -/
def renamesGroups (rd : PyDict) : List (List String) :=
  rd.map (fun kv => strSet (kv.1 :: strsOf (str_to_list kv.2)))

/-- The per-parameter body of the rename-aliasing loop (lines 351-360): if the
parameter appears in some rename group, replace its record's `renames` entry by
the union of all groups containing it (plus any existing renames, minus the
parameter itself). -/
def renParamStep (flat : List (List String)) (ps : PyDict) (p : String) : PyDict :=
  let pairs := flat.filter (fun g => g.contains p)
  if pairs.isEmpty then ps
  else
    let thisRenames := strSet pairs.flatten
    let rec0 := asDict (dgetD ps p (Val.vdict []))
    let existing := strsOf (str_to_list (dgetD rec0 "renames" (Val.vlist [])))
    let newR := (strSet (thisRenames ++ existing)).filter (fun s => s ≠ p)
    dset ps p (Val.vdict (dset rec0 "renames" (Val.vlist (newR.map Val.vstr))))

/-- The rename-aliasing step of `update_info` for one theory/likelihood
component's options (lines 343-360): a truthy non-mapping `renames` is a hard
error; otherwise apply `renParamStep` to every parameter. -/
def applyRenamesItem (params : PyDict) (item : Val) : Except PyErr PyDict := do
  let r := dgetD (asDict item) "renames" Val.vnone
  if truthy r then
    match r with
    | .vdict rd =>
      pure ((dictKeys params).foldl (renParamStep (renamesGroups rd)) params)
    | _ => throw (.loggedError "renames should be a dictionary of name mappings")
  else pure params

/-- The rename-aliasing loop of `update_info` (lines 342-360), over the
theory and likelihood blocks present in the updated info. -/
def renamesStage (blocks : PyDict) (params : PyDict) : Except PyErr PyDict :=
  ["theory", "likelihood"].foldlM (fun ps kind =>
    match dfind? blocks kind with
    | some (Val.vdict b) => b.foldlM (fun ps' c => applyRenamesItem ps' c.2) ps
    | _ => pure ps) params

/-- `update_info` (`input.py` lines 231-365).  The input is deep-copied by the
source before any mutation (line 238), so it is a pure function of `info`.
Stages, in source order: resolve all components (lines 245-317); merge priors
(lines 318-326: the resolved prior block exists iff the raw config has one or a
component contributes one, and component contributions must agree with any
existing definition of the same name); merge parameters (lines 327-331); add
aggregated chi-squared parameters when the raw config has a likelihood block
(lines 332-337; a raw likelihood block whose components produced no updated
likelihood block is Python's uncaught `KeyError`); the `auto_params` branch of
lines 339-340 is unreachable, because at that point `updated_info` only holds
kind blocks, `prior` and `params`, never `auto_params` (a raw `auto_params` key
is passed through by lines 362-364 instead); attach rename aliases (lines
342-360); pass through all remaining top-level keys (lines 362-364). -/
def update_info (reg : Registry) (info : PyDict) : Except PyErr PyDict := do
  let (blocks, dpar, dpri) ← resolveBlocks reg info
  let contribs := dpri.map (fun kv => asDict kv.2)
  let hasPrior := dcontains info "prior" || dpri.any (fun kv => truthy kv.2)
  let priorPart ←
    if hasPrior then
      if contribs.all (fun c => c.isEmpty) then
        pure [("prior", dgetD info "prior" (Val.vdict []))]
      else
        match dgetD info "prior" (Val.vdict []) with
        | Val.vdict base => do
          let m ← merge_priors base contribs
          pure [("prior", Val.vdict m)]
        | _ => throw .typeError
    else pure ([] : PyDict)
  let defaultsMerged ← merge_default_params_info dpar
  let params0 := merge_params_info [defaultsMerged, asDict (dgetD info "params" (Val.vdict []))] false
  let params1 ←
    if dcontains info "likelihood" then
      match dfind? blocks "likelihood" with
      | some (Val.vdict lb) => pure (add_aggregated_chi2_params params0 (likTypes lb))
      | _ => throw (.keyError "likelihood")
    else pure params0
  let params2 ← renamesStage blocks params1
  let assembled := blocks ++ priorPart ++ [("params", Val.vdict params2)]
  pure (info.foldl (fun acc kv => if dcontains acc kv.1 then acc else acc ++ [(kv.1, kv.2)])
    assembled)

/-! ## `is_equal_info` (`input.py` lines 445-539) -/

/-- `v is None`. -/
def isNoneVal : Val → Bool
  | .vnone => true
  | _ => false

/-- The fixed root-level ignore set of relaxed comparison (line 461; string
constants of `cobaya.conventions`, per spec §4.4: debug flags, force flag,
resume flag, package path, test-run flag, version). -/
def ignoredRootKeys : List String :=
  ["debug", "debug_file", "resume", "force", "packages_path", "test_run", "version"]

/-- `set(k for k in d if d[k] is not None) - ignore` (lines 463-464). -/
def nonNullKeys (d : PyDict) (ignore : List String) : List String :=
  strSet (((dictKeys d).filter (fun k => ¬ isNoneVal (dgetD d k Val.vnone))).filter
    (fun k => ¬ ignore.contains k))

/-- Python `set(...)` over a raw `renames` value (lines 505-508): a list keeps
its strings, a bare string is the set of its characters. -/
def setOfRenamesVal : Val → List String
  | .vlist l => strSet (strsOf l)
  | .vstr s => strSet (s.toList.map (fun c => String.singleton c))
  | _ => []

/-- Normalisation of one parameter record by non-strict `is_equal_info`
(lines 493-508): expand to the structured form, drop the `derived` flag when a
fixed `value` is present, and replace `renames` by its value read as a set
(assigning the `renames` key on both sides even when absent, as the source
does). -/
def normParamRecord (v : Val) : PyDict :=
  let e := expand_info_param v none
  let e := if dcontains e "value" then derase e "derived" else e
  dset e "renames" (Val.vlist ((setOfRenamesVal (dgetD e "renames" (Val.vlist []))).map Val.vstr))

/-- `ks.foldl derase d`: pop every listed key (lines 527-529). -/
def popAll (d : PyDict) (ks : List String) : PyDict := ks.foldl derase d

/-- The per-component comparison loop of `is_equal_info` (lines 509-538).  In
non-strict mode, for kind blocks, the component-specific ignore set is
component-path plus the class's prefer-new-on-resume names; the class lookup
pops `component_path` from the old side first (on the local copy) and an
`ImportError` from the registry is swallowed (lines 515-525); the ignored keys
are then popped from both sides before the equality test.  Python's runtime
errors on non-mapping component values in this branch are `typeError`.
`resolveIgnoreExtra` is the `try get_resolved_class ... except ImportError`
block of lines 515-525 (the `component_path` pop of line 517 persists on the
local copy either way), and `compareComponentPair` computes, for one component,
the pair of values that the source's `block1[k] != block2[k]` test at line 530
actually compares, after the pops of lines 526-529. -/
def resolveIgnoreExtra (reg : Registry) (blockName : String) (k : String)
    (d1 : PyDict) : Except PyErr (PyDict × List String) :=
  if ¬ dcontains d1 "external" then
    match reg.resolveClass k blockName (dfind? d1 "component_path")
        (dfind? (derase d1 "component_path") "class_name") with
    | .ok cls => .ok (derase d1 "component_path", cls.preferNew)
    | .error .importError => .ok (derase d1 "component_path", [])
    | .error e => .error e
  else .ok (d1, [])

def compareComponentPair (reg : Registry) (strict : Bool) (blockName : String)
    (ignoreK : List String) (k : String) (v1 v2 : Val) : Except PyErr (Val × Val) :=
  if ¬ strict ∧ kindsList.contains blockName then
    match v1 with
    | .vdict d1 => do
      let pe ← resolveIgnoreExtra reg blockName k d1
      match v2 with
      | .vdict d2 =>
        pure (Val.vdict (popAll pe.1 ((ignoreK ++ ["component_path"]) ++ pe.2)),
              Val.vdict (popAll d2 ((ignoreK ++ ["component_path"]) ++ pe.2)))
      | _ => throw .typeError
    | _ => throw .typeError
  else pure (v1, v2)

def checkComponents (reg : Registry) (strict : Bool) (blockName : String)
    (ignoreK : List String) (b1 b2 : PyDict) : List String → Except PyErr Bool
  | [] => .ok true
  | k :: rest => do
    let cmp ← compareComponentPair reg strict blockName ignoreK k
      (dgetD b1 k Val.vnone) (dgetD b2 k Val.vnone)
    if pyEq cmp.1 cmp.2 then checkComponents reg strict blockName ignoreK b1 b2 rest
    else .ok false

/-- The block loop of `is_equal_info` (lines 468-538): skip ignored or absent
blocks; compare non-mapping root options by `==`; for mapping blocks compare
first-level key order (as ordered lists when strict, as sets otherwise; lines
480-486), then normalise `params` records in non-strict mode and compare the
components one by one.  Note: the parameter-level cosmetic ignore set computed
at lines 497-498 is only ever applied inside the kinds branch (lines 513-529),
so it has no effect for the `params` block. -/
def checkBlocks (reg : Registry) (strict : Bool) (ignore : List String)
    (infoNew : PyDict) : List (String × Val) → Except PyErr Bool
  | [] => .ok true
  | (bn, bv) :: rest => do
    if ignore.contains bn ∨ ¬ dcontains infoNew bn then
      checkBlocks reg strict ignore infoNew rest
    else
      let b2v := dgetD infoNew bn Val.vnone
      match bv with
      | Val.vdict b1 =>
        match b2v with
        | Val.vdict b2 => do
          if (if strict then decide (dictKeys b1 = dictKeys b2)
              else decide (strSet (dictKeys b1) = strSet (dictKeys b2))) then do
            let pr :=
              if ¬ strict ∧ bn = "params" then
                (dictKeys b1).foldl (fun (pr : PyDict × PyDict) p =>
                  (dset pr.1 p (Val.vdict (normParamRecord (dgetD pr.1 p Val.vnone))),
                   dset pr.2 p (Val.vdict (normParamRecord (dgetD pr.2 p Val.vnone)))))
                  (b1, b2)
              else (b1, b2)
            let ignoreK := if ¬ strict ∧ (bn = "theory" ∨ bn = "likelihood") then
                ["input_params", "output_params"] else []
            let r ← checkComponents reg strict bn ignoreK pr.1 pr.2 (dictKeys pr.1)
            if r then checkBlocks reg strict ignore infoNew rest else .ok false
          else .ok false
        | _ => throw .typeError
      | _ =>
        if pyEq bv b2v then checkBlocks reg strict ignore infoNew rest
        else .ok false

/-- `is_equal_info` (`input.py` lines 445-539).  Both inputs are only read
through local deep copies (lines 471-472), so it is a pure function of them.
Content mismatches are the `false` result; the only exception it can propagate
is a non-ImportError registry failure from the prefer-new ignore-set lookup
(and Python runtime errors on ill-typed blocks, modelled as `typeError`). -/
def is_equal_info (reg : Registry) (info_old info_new : PyDict) (strict : Bool)
    (ignore_blocks : List String) : Except PyErr Bool := do
  let ignore := (if strict then [] else ignoredRootKeys) ++ ignore_blocks
  if nonNullKeys info_old ignore = nonNullKeys info_new ignore then
    checkBlocks reg strict ignore info_new info_old
  else .ok false

/-! ## `get_preferred_old_values` (`input.py` lines 542-565) -/

/-- The per-component body of `get_preferred_old_values` (lines 550-564).  The
`component_path` entry is popped from the component's options *in place* (line
552: `block[k].pop(_component_path, None)` operates on the input, not on a
copy), before the class lookup; an `ImportError` is swallowed (and the pop
persists).  The result is the optional keep-old entry (present when the class
declares a non-empty prefer-old set: its declared options that are present in
the popped record) together with the component's options value after the
mutation. -/
def preferredOldComponent (reg : Registry) (blockName k : String) (v : Val) :
    Except PyErr (Option (String × Val) × Val) := do
  match v with
  | .vdict d => do
    let cp := dfind? d "component_path"
    let d' := derase d "component_path"
    match reg.resolveClass k blockName cp (dfind? d' "class_name") with
    | .ok cls =>
      if cls.preferOld.isEmpty then pure (none, Val.vdict d')
      else
        pure (some (k, Val.vdict ((strSet cls.preferOld).filterMap
          (fun o => (dfind? d' o).map (fun x => (o, x))))), Val.vdict d')
    | .error .importError => pure (none, Val.vdict d')
    | .error e => throw e
  | _ =>
    if truthy v then throw .typeError
    else
      match reg.resolveClass k blockName none none with
      | .ok cls =>
        if cls.preferOld.isEmpty then pure (none, v) else throw .typeError
      | .error .importError => pure (none, v)
      | .error e => throw e

/-- One component step of the inner loop of `get_preferred_old_values`
(lines 550-564): run `preferredOldComponent` and accumulate the keep-old entry
(if any) and the component's possibly mutated options value. -/
def poStep (reg : Registry) (blockName : String) (bacc : PyDict × PyDict)
    (kv : String × Val) : Except PyErr (PyDict × PyDict) := do
  let r ← preferredOldComponent reg blockName kv.1 kv.2
  let keepEntries := match r.1 with
    | some e => dset bacc.1 e.1 e.2
    | none => bacc.1
  pure (keepEntries, dset bacc.2 kv.1 r.2)

/-- One kind-block step of `get_preferred_old_values` (lines 548-564): a truthy
kind block is traversed component by component; any other entry of `info_old`
passes through untouched. -/
def gpoBlockStep (reg : Registry) (acc : PyDict × PyDict) (bv : String × Val) :
    Except PyErr (PyDict × PyDict) := do
  if kindsList.contains bv.1 ∧ truthy bv.2 then
    match bv.2 with
    | .vdict b => do
      let res ← b.foldlM (poStep reg bv.1) (([] : PyDict), ([] : PyDict))
      pure (if res.1.isEmpty then acc.1 else dset acc.1 bv.1 (Val.vdict res.1),
            acc.2 ++ [(bv.1, Val.vdict res.2)])
    | _ => throw .typeError
  else pure (acc.1, acc.2 ++ [(bv.1, bv.2)])

/-- `get_preferred_old_values` (`input.py` lines 542-565).  Because the source
pops `component_path` from the input's component options in place, the embedded
function returns both the keep-old overrides and the final state of `info_old`
after the call. -/
def get_preferred_old_values (reg : Registry) (info_old : PyDict) :
    Except PyErr (PyDict × PyDict) :=
  info_old.foldlM (gpoBlockStep reg) (([] : PyDict), ([] : PyDict))

/-! ## `HasDefaults.get_defaults` (`input.py` lines 720-779) -/

/-- A component class participating in the defaults protocol (`HasDefaults`):
its participating base classes, in `__bases__` order, and its own declared
defaults (`this_defaults` of line 766: the class's .yaml content or its
class-attribute options — mutually exclusive per lines 757-763, so a single
mapping). -/
inductive Cls where
  | mk : List Cls → PyDict → Cls

/-- The participating base classes of a class. -/
def Cls.bases : Cls → List Cls
  | .mk bs _ => bs

/-- The class's own declared defaults. -/
def Cls.own : Cls → PyDict
  | .mk _ d => d

mutual
/-- `HasDefaults.get_defaults` (lines 764-779, the `return_yaml=False` path):
start from a copy of the class's own defaults, so that the most-derived class's
keys come first (line 770), fold in each participating base class's recursive
defaults (lines 772-774), then re-overlay the class's own defaults so that its
values win (line 775). -/
def Cls.get_defaults : Cls → PyDict
  | .mk bases own => dupdate (Cls.updBases own bases) own

/-- The loop `for base in cls.__bases__: defaults.update(base.get_defaults(...))`
(lines 772-774). -/
def Cls.updBases : PyDict → List Cls → PyDict
  | d, [] => d
  | d, b :: bs => Cls.updBases (dupdate d (Cls.get_defaults b)) bs
end

/-! ## Dictionary lemmas -/

theorem dfind?_dset_self (d : PyDict) (k : String) (v : Val) :
    dfind? (dset d k v) k = some v := by
  induction d with
  | nil => simp [dset, dfind?]
  | cons p d ih =>
    cases p with
    | mk k0 v0 =>
      by_cases h : k0 = k
      · subst h; simp [dset, dfind?]
      · simp only [dset, if_neg h, dfind?, ih]

theorem dfind?_dset_ne (d : PyDict) (k k' : String) (v : Val) (h : k' ≠ k) :
    dfind? (dset d k v) k' = dfind? d k' := by
  have hne : ¬ (k = k') := fun hh => h hh.symm
  induction d with
  | nil =>
    simp only [dset, dfind?]
    rw [if_neg hne]
  | cons p d ih =>
    cases p with
    | mk k0 v0 =>
      by_cases h0 : k0 = k
      · subst h0
        simp only [dset, if_pos rfl, dfind?]
        rw [if_neg hne, if_neg hne]
      · simp only [dset, if_neg h0, dfind?]
        by_cases h1 : k0 = k'
        · rw [if_pos h1, if_pos h1]
        · rw [if_neg h1, if_neg h1, ih]

theorem dcontains_iff_mem (d : PyDict) (k : String) :
    dcontains d k = true ↔ k ∈ dictKeys d := by
  induction d with
  | nil => simp [dcontains, dfind?, dictKeys]
  | cons p d ih =>
    cases p with
    | mk k0 v0 =>
      simp only [dcontains, dfind?, dictKeys, List.map_cons, List.mem_cons]
      by_cases h : k0 = k
      · subst h; simp
      · rw [if_neg h]
        have hne : ¬ (k = k0) := fun hh => h hh.symm
        rw [dcontains] at ih
        rw [dictKeys] at ih
        simp [ih, hne]

theorem dcontains_dset (d : PyDict) (k k' : String) (v : Val) :
    dcontains (dset d k v) k' = if k' = k then true else dcontains d k' := by
  by_cases h : k' = k
  · subst h
    rw [if_pos rfl]
    rw [dcontains, dfind?_dset_self]
    rfl
  · rw [if_neg h]
    rw [dcontains, dfind?_dset_ne d k k' v h]
    rfl

theorem dictKeys_dset (d : PyDict) (k : String) (v : Val) :
    dictKeys (dset d k v) = if dcontains d k then dictKeys d else dictKeys d ++ [k] := by
  induction d with
  | nil => simp [dset, dictKeys, dcontains, dfind?]
  | cons p d ih =>
    cases p with
    | mk k0 v0 =>
      by_cases h : k0 = k
      · subst h
        have hc : dcontains ((k0, v0) :: d) k0 = true := by
          rw [dcontains, dfind?, if_pos rfl]; rfl
        rw [hc, if_pos rfl]
        simp [dset, dictKeys]
      · have hstep : dset ((k0, v0) :: d) k v = (k0, v0) :: dset d k v := by
          simp [dset, if_neg h]
        have hcon : dcontains ((k0, v0) :: d) k = dcontains d k := by
          rw [dcontains, dfind?, if_neg h]; rfl
        rw [hstep, hcon]
        by_cases hc : dcontains d k
        · rw [if_pos hc]
          rw [if_pos hc] at ih
          simp [dictKeys] at ih ⊢
          exact ih
        · rw [if_neg hc]
          rw [if_neg hc] at ih
          simp [dictKeys] at ih ⊢
          exact ih

theorem dfind?_derase_self (d : PyDict) (k : String) :
    dfind? (derase d k) k = none := by
  induction d with
  | nil => simp [derase, dfind?]
  | cons p d ih =>
    cases p with
    | mk k0 v0 =>
      by_cases h : k0 = k
      · subst h
        have : derase ((k0, v0) :: d) k0 = derase d k0 := by
          simp [derase]
        rw [this, ih]
      · have : derase ((k0, v0) :: d) k = (k0, v0) :: derase d k := by
          simp [derase, h]
        rw [this, dfind?, if_neg h, ih]

theorem dfind?_derase_ne (d : PyDict) (k k' : String) (h : k' ≠ k) :
    dfind? (derase d k) k' = dfind? d k' := by
  induction d with
  | nil => simp [derase]
  | cons p d ih =>
    cases p with
    | mk k0 v0 =>
      by_cases h0 : k0 = k
      · subst h0
        have hstep : derase ((k0, v0) :: d) k0 = derase d k0 := by simp [derase]
        have hne : ¬ (k0 = k') := fun hh => h hh.symm
        rw [hstep, ih, dfind?, if_neg hne]
      · have hstep : derase ((k0, v0) :: d) k = (k0, v0) :: derase d k := by
          simp [derase, h0]
        rw [hstep, dfind?, dfind?, ih]

theorem dcontains_derase (d : PyDict) (k k' : String) :
    dcontains (derase d k) k' = if k' = k then false else dcontains d k' := by
  by_cases h : k' = k
  · subst h
    rw [if_pos rfl, dcontains, dfind?_derase_self]
    rfl
  · rw [if_neg h, dcontains, dfind?_derase_ne d k k' h]
    rfl

/-- `a <|> b` on optional values, spelled out to keep rewriting easy. -/
def optOr (a b : Option Val) : Option Val :=
  match a with
  | some x => some x
  | none => b

theorem optOr_none (b : Option Val) : optOr none b = b := rfl

theorem optOr_some (x : Val) (b : Option Val) : optOr (some x) b = some x := rfl

theorem optOr_assoc (a b c : Option Val) :
    optOr (optOr a b) c = optOr a (optOr b c) := by
  cases a <;> rfl

theorem dfind?_append (d e : PyDict) (k : String) :
    dfind? (d ++ e) k = optOr (dfind? d k) (dfind? e k) := by
  induction d with
  | nil => simp [dfind?, optOr]
  | cons p d ih =>
    cases p with
    | mk k0 v0 =>
      by_cases h : k0 = k
      · subst h
        show (if k0 = k0 then some v0 else dfind? (d ++ e) k0) =
          optOr (if k0 = k0 then some v0 else dfind? d k0) (dfind? e k0)
        rw [if_pos rfl, if_pos rfl, optOr_some]
      · show (if k0 = k then some v0 else dfind? (d ++ e) k) =
          optOr (if k0 = k then some v0 else dfind? d k) (dfind? e k)
        rw [if_neg h, if_neg h, ih]

theorem dupdate_cons (d : PyDict) (k0 : String) (v0 : Val) (e : PyDict) :
    dupdate d ((k0, v0) :: e) = dupdate (dset d k0 v0) e := rfl

theorem dupdate_nil_right (d : PyDict) : dupdate d [] = d := rfl

theorem dfind?_dupdate (d e : PyDict) (k : String) :
    dfind? (dupdate d e) k = optOr (dfind? (dupdate [] e) k) (dfind? d k) := by
  induction e generalizing d with
  | nil => simp [dupdate, dfind?, optOr]
  | cons p e ih =>
    cases p with
    | mk k0 v0 =>
      rw [dupdate_cons, dupdate_cons]
      rw [ih (dset d k0 v0), ih (dset [] k0 v0)]
      by_cases h : k = k0
      · subst h
        rw [dfind?_dset_self, dfind?_dset_self]
        rw [optOr_assoc, optOr_some]
      · have hne : k ≠ k0 := h
        rw [dfind?_dset_ne _ _ _ _ hne, dfind?_dset_ne _ _ _ _ hne]
        have : dfind? ([] : PyDict) k = none := rfl
        rw [this]
        cases hf : dfind? (dupdate [] e) k <;> rfl

theorem dcontains_dupdate_nil (e : PyDict) (k : String) :
    dcontains (dupdate [] e) k = dcontains e k := by
  induction e with
  | nil => rfl
  | cons p e ih =>
    cases p with
    | mk k0 v0 =>
      rw [dupdate_cons]
      rw [dcontains, dfind?_dupdate (dset [] k0 v0) e k]
      by_cases h : k = k0
      · subst h
        rw [dfind?_dset_self]
        cases hf : dfind? (dupdate [] e) k
        · rw [optOr_none]
          rw [dcontains, dfind?, if_pos rfl]
        · rw [optOr_some]
          rw [dcontains, dfind?, if_pos rfl]
          rfl
      · have hne : ¬ (k0 = k) := fun hh => h hh.symm
        rw [dfind?_dset_ne _ _ _ _ h]
        have : dfind? ([] : PyDict) k = none := rfl
        rw [this]
        rw [dcontains, dfind?, if_neg hne]
        rw [dcontains, dfind?_dupdate ([] : PyDict) e k, this] at ih
        cases hf : dfind? (dupdate [] e) k <;> rw [hf] at ih
        · rw [optOr_none]
          rw [optOr_none] at ih
          exact ih
        · rw [optOr_some]
          rw [optOr_some] at ih
          exact ih

theorem dcontains_dupdate (d e : PyDict) (k : String) :
    dcontains (dupdate d e) k = (dcontains e k || dcontains d k) := by
  rw [dcontains, dfind?_dupdate]
  rw [← dcontains_dupdate_nil e k]
  rw [dcontains, dcontains]
  cases hf : dfind? (dupdate [] e) k
  · rw [optOr_none]; rfl
  · rw [optOr_some]; rfl

theorem dfind?_dupdate_nil_nodup (e : PyDict) (k : String)
    (h : (dictKeys e).Nodup) : dfind? (dupdate [] e) k = dfind? e k := by
  induction e with
  | nil => rfl
  | cons p e ih =>
    cases p with
    | mk k0 v0 =>
      have hnd : (dictKeys e).Nodup := by
        have := h
        simp only [dictKeys, List.map_cons, List.nodup_cons] at this
        exact this.2
      have hk0 : k0 ∉ dictKeys e := by
        have := h
        simp only [dictKeys, List.map_cons, List.nodup_cons] at this
        exact this.1
      rw [dupdate_cons, dfind?_dupdate]
      by_cases hk : k = k0
      · subst hk
        have hnone : dfind? (dupdate [] e) k = none := by
          have hc : dcontains (dupdate [] e) k = false := by
            rw [dcontains_dupdate_nil]
            by_contra hcc
            simp only [Bool.not_eq_false] at hcc
            exact hk0 ((dcontains_iff_mem e k).mp hcc)
          rw [dcontains] at hc
          cases hf : dfind? (dupdate [] e) k
          · rfl
          · rw [hf] at hc; simp at hc
        rw [hnone, optOr_none, dfind?_dset_self, dfind?, if_pos rfl]
      · have hne : ¬ (k0 = k) := fun hh => hk hh.symm
        rw [ih hnd, dfind?_dset_ne _ _ _ _ hk]
        have : dfind? ([] : PyDict) k = none := rfl
        rw [this, dfind?, if_neg hne]
        cases hf : dfind? e k
        · rw [optOr_none]
        · rw [optOr_some]

theorem mem_dedupFirst (l : List String) (x : String) : x ∈ dedupFirst l ↔ x ∈ l := by
  induction l with
  | nil => simp [dedupFirst]
  | cons a t ih =>
    simp only [dedupFirst, List.mem_cons, List.mem_filter]
    by_cases h : x = a
    · simp [h]
    · simp [h, ih]

theorem nodup_dedupFirst (l : List String) : (dedupFirst l).Nodup := by
  induction l with
  | nil => simp [dedupFirst]
  | cons a t ih =>
    simp only [dedupFirst, List.nodup_cons]
    constructor
    · intro hmem
      rw [List.mem_filter] at hmem
      simp at hmem
    · exact ih.filter _

theorem dedupFirst_filter (p : String → Bool) (l : List String) :
    dedupFirst (l.filter p) = (dedupFirst l).filter p := by
  induction l with
  | nil => simp [dedupFirst]
  | cons a t ih =>
    by_cases h : p a
    · rw [List.filter_cons_of_pos h]
      show a :: (dedupFirst (t.filter p)).filter (fun k' => k' ≠ a) =
        (a :: (dedupFirst t).filter (fun k' => k' ≠ a)).filter p
      rw [List.filter_cons_of_pos h, ih, List.filter_filter, List.filter_filter]
      congr 1
      apply List.filter_congr
      intro x _
      rw [Bool.and_comm]
    · rw [List.filter_cons_of_neg h]
      show dedupFirst (t.filter p) =
        (a :: (dedupFirst t).filter (fun k' => k' ≠ a)).filter p
      rw [List.filter_cons_of_neg h, ih, List.filter_filter]
      symm
      apply List.filter_congr
      intro x _
      by_cases hpx : p x
      · have hxa : x ≠ a := by
          intro hh; rw [hh] at hpx; exact h hpx
        simp [hpx, hxa]
      · simp [hpx]

theorem dictKeys_cons (k0 : String) (v0 : Val) (d : PyDict) :
    dictKeys ((k0, v0) :: d) = k0 :: dictKeys d := rfl

theorem dictKeys_dupdate (d e : PyDict) :
    dictKeys (dupdate d e) =
      dictKeys d ++ dedupFirst ((dictKeys e).filter (fun k => !(dcontains d k))) := by
  induction e generalizing d with
  | nil => simp [dupdate, dictKeys, dedupFirst]
  | cons p e ih =>
    cases p with
    | mk k0 v0 =>
      rw [dupdate_cons, ih (dset d k0 v0), dictKeys_dset, dictKeys_cons]
      by_cases hc : dcontains d k0
      · rw [if_pos hc]
        have hfc : (k0 :: dictKeys e).filter (fun k => !(dcontains d k)) =
            (dictKeys e).filter (fun k => !(dcontains d k)) := by
          rw [List.filter_cons_of_neg]
          simp [hc]
        rw [hfc]
        congr 2
        apply List.filter_congr
        intro x _
        rw [dcontains_dset]
        by_cases hxk : x = k0
        · subst hxk; rw [if_pos rfl]; simp [hc]
        · rw [if_neg hxk]
      · rw [if_neg hc]
        have hfc : (k0 :: dictKeys e).filter (fun k => !(dcontains d k)) =
            k0 :: (dictKeys e).filter (fun k => !(dcontains d k)) := by
          rw [List.filter_cons_of_pos]
          simp [hc]
        rw [hfc]
        have hded : dedupFirst (k0 :: (dictKeys e).filter (fun k => !(dcontains d k))) =
            k0 :: (dedupFirst ((dictKeys e).filter (fun k => !(dcontains d k)))).filter
              (fun k' => k' ≠ k0) := rfl
        rw [hded]
        have hfilt : (dictKeys e).filter (fun k => !(dcontains (dset d k0 v0) k)) =
            ((dictKeys e).filter (fun k => !(dcontains d k))).filter (fun k => k ≠ k0) := by
          rw [List.filter_filter]
          apply List.filter_congr
          intro x _
          rw [dcontains_dset]
          by_cases hxk : x = k0
          · subst hxk; rw [if_pos rfl]; simp
          · rw [if_neg hxk]; simp [hxk]
        rw [hfilt, dedupFirst_filter]
        simp

theorem nodup_dictKeys_dset (d : PyDict) (k : String) (v : Val)
    (h : (dictKeys d).Nodup) : (dictKeys (dset d k v)).Nodup := by
  rw [dictKeys_dset]
  by_cases hc : dcontains d k
  · rw [if_pos hc]; exact h
  · rw [if_neg hc]
    have hk : k ∉ dictKeys d := fun hm => hc ((dcontains_iff_mem d k).mpr hm)
    simp [List.nodup_append, h, hk]

theorem mem_insStr (s x : String) (l : List String) :
    x ∈ insStr s l ↔ x = s ∨ x ∈ l := by
  induction l with
  | nil => simp [insStr]
  | cons a t ih =>
    by_cases h : strLe s a = true
    · simp [insStr, h]
    · simp only [insStr, if_neg h, List.mem_cons, ih]
      tauto

theorem mem_sortStr (l : List String) (x : String) : x ∈ sortStr l ↔ x ∈ l := by
  induction l with
  | nil => simp [sortStr]
  | cons a t ih => simp [sortStr, mem_insStr, ih]

theorem mem_strSet (l : List String) (x : String) : x ∈ strSet l ↔ x ∈ l := by
  rw [strSet, mem_sortStr, mem_dedupFirst]

/-! ## Lemmas about the parameter merger -/

theorem dcontains_false_derase (d : PyDict) (k f : String)
    (h : dcontains d f = false) : dcontains (derase d k) f = false := by
  rw [dcontains_derase]
  by_cases hf : f = k
  · rw [if_pos hf]
  · rw [if_neg hf]; exact h

theorem dcontains_derase_self (d : PyDict) (k : String) :
    dcontains (derase d k) k = false := by
  rw [dcontains_derase, if_pos rfl]

theorem clearPrior_false (e r : PyDict) (f : String) (h : dcontains r f = false) :
    dcontains (clearPrior e r) f = false := by
  unfold clearPrior
  by_cases hc : dcontains e "prior"
  · rw [if_pos hc]
    exact dcontains_false_derase _ _ _ (dcontains_false_derase _ _ _
      (dcontains_false_derase _ _ _ (dcontains_false_derase _ _ _ h)))
  · rw [if_neg hc]; exact h

theorem clearValue_false (e r : PyDict) (f : String) (h : dcontains r f = false) :
    dcontains (clearValue e r) f = false := by
  unfold clearValue
  by_cases hc : dcontains e "value"
  · rw [if_pos hc]
    exact dcontains_false_derase _ _ _ (dcontains_false_derase _ _ _
      (dcontains_false_derase _ _ _ h))
  · rw [if_neg hc]; exact h

theorem clearDerived_false (e r : PyDict) (f : String) (h : dcontains r f = false) :
    dcontains (clearDerived e r) f = false := by
  unfold clearDerived
  by_cases hc : dcontains e "derived"
  · rw [if_pos hc]
    exact dcontains_false_derase _ _ _ (dcontains_false_derase _ _ _
      (dcontains_false_derase _ _ _ (dcontains_false_derase _ _ _ h)))
  · rw [if_neg hc]; exact h

theorem clearPrior_of_prior (e r : PyDict) (h : dcontains e "prior" = true) :
    dcontains (clearPrior e r) "value" = false ∧
    dcontains (clearPrior e r) "derived" = false ∧
    dcontains (clearPrior e r) "min" = false ∧
    dcontains (clearPrior e r) "max" = false := by
  unfold clearPrior
  rw [if_pos h]
  refine ⟨?_, ?_, ?_, ?_⟩
  · exact dcontains_false_derase _ _ _ (dcontains_false_derase _ _ _
      (dcontains_false_derase _ _ _ (dcontains_derase_self _ _)))
  · exact dcontains_false_derase _ _ _ (dcontains_false_derase _ _ _
      (dcontains_derase_self _ _))
  · exact dcontains_false_derase _ _ _ (dcontains_derase_self _ _)
  · exact dcontains_derase_self _ _

theorem clearValue_of_value (e r : PyDict) (h : dcontains e "value" = true) :
    dcontains (clearValue e r) "prior" = false ∧
    dcontains (clearValue e r) "ref" = false ∧
    dcontains (clearValue e r) "proposal" = false := by
  unfold clearValue
  rw [if_pos h]
  refine ⟨?_, ?_, ?_⟩
  · exact dcontains_false_derase _ _ _ (dcontains_false_derase _ _ _
      (dcontains_derase_self _ _))
  · exact dcontains_false_derase _ _ _ (dcontains_derase_self _ _)
  · exact dcontains_derase_self _ _

theorem clearDerived_of_derived (e r : PyDict) (h : dcontains e "derived" = true) :
    dcontains (clearDerived e r) "prior" = false ∧
    dcontains (clearDerived e r) "drop" = false ∧
    dcontains (clearDerived e r) "ref" = false ∧
    dcontains (clearDerived e r) "proposal" = false := by
  unfold clearDerived
  rw [if_pos h]
  refine ⟨?_, ?_, ?_, ?_⟩
  · exact dcontains_false_derase _ _ _ (dcontains_false_derase _ _ _
      (dcontains_false_derase _ _ _ (dcontains_derase_self _ _)))
  · exact dcontains_false_derase _ _ _ (dcontains_false_derase _ _ _
      (dcontains_derase_self _ _))
  · exact dcontains_false_derase _ _ _ (dcontains_derase_self _ _)
  · exact dcontains_derase_self _ _

theorem expand_vdict_none (d : PyDict) : expand_info_param (Val.vdict d) none = d := rfl

theorem stepParam_of_prior (cur : PyDict) (d : PyDict) (h : dcontains d "prior" = true) :
    dcontains (stepParam cur (Val.vdict d)) "value" = false ∧
    dcontains (stepParam cur (Val.vdict d)) "derived" = false ∧
    dcontains (stepParam cur (Val.vdict d)) "min" = false ∧
    dcontains (stepParam cur (Val.vdict d)) "max" = false := by
  unfold stepParam
  rw [expand_vdict_none]
  have h4 := clearPrior_of_prior d (dupdate cur d) h
  exact ⟨clearDerived_false _ _ _ (clearValue_false _ _ _ h4.1),
         clearDerived_false _ _ _ (clearValue_false _ _ _ h4.2.1),
         clearDerived_false _ _ _ (clearValue_false _ _ _ h4.2.2.1),
         clearDerived_false _ _ _ (clearValue_false _ _ _ h4.2.2.2)⟩

theorem stepParam_of_value (cur : PyDict) (d : PyDict) (h : dcontains d "value" = true) :
    dcontains (stepParam cur (Val.vdict d)) "prior" = false ∧
    dcontains (stepParam cur (Val.vdict d)) "ref" = false ∧
    dcontains (stepParam cur (Val.vdict d)) "proposal" = false := by
  unfold stepParam
  rw [expand_vdict_none]
  have h3 := clearValue_of_value d (clearPrior d (dupdate cur d)) h
  exact ⟨clearDerived_false _ _ _ h3.1,
         clearDerived_false _ _ _ h3.2.1,
         clearDerived_false _ _ _ h3.2.2⟩

theorem stepParam_of_derived (cur : PyDict) (d : PyDict) (h : dcontains d "derived" = true) :
    dcontains (stepParam cur (Val.vdict d)) "prior" = false ∧
    dcontains (stepParam cur (Val.vdict d)) "drop" = false ∧
    dcontains (stepParam cur (Val.vdict d)) "ref" = false ∧
    dcontains (stepParam cur (Val.vdict d)) "proposal" = false :=
  clearDerived_of_derived d _ h

theorem mergeLayer_cons (cur : PyDict) (q : String × Val) (t : PyDict) :
    mergeLayer cur (q :: t) =
      mergeLayer (dset cur q.1 (Val.vdict (stepParam (asDict (dgetD cur q.1 (Val.vdict []))) q.2))) t := rfl

theorem dfind?_mergeLayer_not_mem (l : PyDict) (cur : PyDict) (p : String)
    (h : p ∉ dictKeys l) : dfind? (mergeLayer cur l) p = dfind? cur p := by
  induction l generalizing cur with
  | nil => rfl
  | cons q t ih =>
    rw [mergeLayer_cons]
    have hks : dictKeys (q :: t) = q.1 :: dictKeys t := by
      cases q; rfl
    rw [hks] at h
    have hq : p ≠ q.1 := fun hh => h (by rw [hh]; exact List.mem_cons_self _ _)
    have ht : p ∉ dictKeys t := fun hh => h (List.mem_cons_of_mem _ hh)
    rw [ih _ ht, dfind?_dset_ne _ _ _ _ hq]

theorem dfind?_mergeLayer_mem (l : PyDict) (cur : PyDict) (p : String) (v : Val)
    (hnd : (dictKeys l).Nodup) (hmem : (p, v) ∈ l) :
    ∃ curp, dfind? (mergeLayer cur l) p = some (Val.vdict (stepParam curp v)) := by
  induction l generalizing cur with
  | nil => cases hmem
  | cons q t ih =>
    have hks : dictKeys (q :: t) = q.1 :: dictKeys t := by
      cases q; rfl
    rw [hks, List.nodup_cons] at hnd
    rw [mergeLayer_cons]
    rcases List.mem_cons.mp hmem with heq | htail
    · have hq1 : q.1 = p := by rw [← heq]
      have hq2 : q.2 = v := by rw [← heq]
      have hpt : p ∉ dictKeys t := by rw [← hq1]; exact hnd.1
      rw [dfind?_mergeLayer_not_mem _ _ _ hpt, hq1, dfind?_dset_self, hq2]
      exact ⟨_, rfl⟩
    · exact ih _ hnd.2 htail

theorem dcontains_mergeLayer (l : PyDict) (cur : PyDict) (x : String) :
    dcontains (mergeLayer cur l) x = true ↔ dcontains cur x = true ∨ x ∈ dictKeys l := by
  induction l generalizing cur with
  | nil => simp [mergeLayer, dictKeys]
  | cons q t ih =>
    rw [mergeLayer_cons, ih]
    rw [dcontains_dset]
    have hks : dictKeys (q :: t) = q.1 :: dictKeys t := by cases q; rfl
    rw [hks]
    by_cases hx : x = q.1
    · subst hx; simp
    · rw [if_neg hx]
      simp only [List.mem_cons]
      constructor
      · rintro (h | h)
        · exact Or.inl h
        · exact Or.inr (Or.inr h)
      · rintro (h | h | h)
        · exact Or.inl h
        · exact absurd h hx
        · exact Or.inr h

theorem dictKeys_map_pair (l : PyDict) (f : String × Val → Val) :
    dictKeys (l.map (fun pv => (pv.1, f pv))) = dictKeys l := by
  induction l with
  | nil => rfl
  | cons q t ih =>
    simp only [List.map_cons, dictKeys_cons]
    show q.1 :: dictKeys (t.map (fun pv => (pv.1, f pv))) = dictKeys (q :: t)
    rw [ih]
    cases q; rfl

theorem dcontains_foldl_mergeLayer (ls : List PyDict) (cur : PyDict) (x : String) :
    dcontains (ls.foldl mergeLayer cur) x = true ↔
      dcontains cur x = true ∨ x ∈ (ls.map dictKeys).flatten := by
  induction ls generalizing cur with
  | nil => simp
  | cons l t ih =>
    simp only [List.foldl_cons, List.map_cons, List.flatten_cons, List.mem_append]
    rw [ih, dcontains_mergeLayer]
    tauto

theorem map_fst_filterMap_dfind? (cur : PyDict) (ks : List String) :
    (ks.filterMap (fun p => (dfind? cur p).map (fun v => (p, v)))).map Prod.fst =
      ks.filter (fun p => dcontains cur p) := by
  induction ks with
  | nil => rfl
  | cons a t ih =>
    simp only [List.filterMap_cons]
    cases hf : dfind? cur a
    · rw [List.filter_cons_of_neg]
      · exact ih
      · simp [dcontains, hf]
    · rw [List.filter_cons_of_pos]
      · simp only [Option.map_some', List.map_cons]
        rw [ih]
      · simp [dcontains, hf]

theorem dictKeys_filterMap_dfind? (cur : PyDict) (ks : List String) :
    dictKeys (ks.filterMap (fun p => (dfind? cur p).map (fun v => (p, v)))) =
      ks.filter (fun p => dcontains cur p) :=
  map_fst_filterMap_dfind? cur ks

/-- C1: for `merge_params_info` over an ordered list of parameter layers,
whenever a later layer sets `prior` for a parameter, any existing `value`,
`derived`, `min`, `max` fields of that parameter are removed from the
accumulated record (first conjunct, stated on `mergeLayer`, the processing of
one later layer); whenever it sets `value`, existing `prior`, `ref`, `proposal`
are removed (second conjunct); whenever it sets `derived`, existing `prior`,
`drop`, `ref`, `proposal` are removed (third conjunct).  In particular, merging
`[{"p": {"prior": "U(0,1)"}}, {"p": {"value": 0.5}}]` yields `p` with
`value: 0.5` and no `prior` key (last conjunct). -/
theorem C1_incompatibility_clearing :
    (∀ (current new_info : PyDict) (p : String) (d : PyDict),
        (dictKeys new_info).Nodup → (p, Val.vdict d) ∈ new_info →
        dcontains d "prior" = true →
        ∃ r, dfind? (mergeLayer current new_info) p = some (Val.vdict r) ∧
          dcontains r "value" = false ∧ dcontains r "derived" = false ∧
          dcontains r "min" = false ∧ dcontains r "max" = false) ∧
    (∀ (current new_info : PyDict) (p : String) (d : PyDict),
        (dictKeys new_info).Nodup → (p, Val.vdict d) ∈ new_info →
        dcontains d "value" = true →
        ∃ r, dfind? (mergeLayer current new_info) p = some (Val.vdict r) ∧
          dcontains r "prior" = false ∧ dcontains r "ref" = false ∧
          dcontains r "proposal" = false) ∧
    (∀ (current new_info : PyDict) (p : String) (d : PyDict),
        (dictKeys new_info).Nodup → (p, Val.vdict d) ∈ new_info →
        dcontains d "derived" = true →
        ∃ r, dfind? (mergeLayer current new_info) p = some (Val.vdict r) ∧
          dcontains r "prior" = false ∧ dcontains r "drop" = false ∧
          dcontains r "ref" = false ∧ dcontains r "proposal" = false) ∧
    merge_params_info
      [[("p", Val.vdict [("prior", Val.vstr "U(0,1)")])],
       [("p", Val.vdict [("value", Val.vrat (1/2))])]] true =
      [("p", Val.vdict [("value", Val.vrat (1/2))])] := by
  refine ⟨?_, ?_, ?_, rfl⟩
  · intro current new_info p d hnd hmem hset
    obtain ⟨curp, hfind⟩ := dfind?_mergeLayer_mem new_info current p (Val.vdict d) hnd hmem
    exact ⟨_, hfind, stepParam_of_prior curp d hset⟩
  · intro current new_info p d hnd hmem hset
    obtain ⟨curp, hfind⟩ := dfind?_mergeLayer_mem new_info current p (Val.vdict d) hnd hmem
    exact ⟨_, hfind, stepParam_of_value curp d hset⟩
  · intro current new_info p d hnd hmem hset
    obtain ⟨curp, hfind⟩ := dfind?_mergeLayer_mem new_info current p (Val.vdict d) hnd hmem
    exact ⟨_, hfind, stepParam_of_derived curp d hset⟩

/-- Witness for C1 at a concrete input: a later layer `{"q": {"prior": "u"}}`
merged into the accumulated record `{"q": {"value": 1, "min": 0}}` removes the
existing `value` and `min`. -/
theorem C1_incompatibility_clearing_witness :
    ∃ r, dfind? (mergeLayer [("q", Val.vdict [("value", Val.vint 1), ("min", Val.vint 0)])]
        [("q", Val.vdict [("prior", Val.vstr "u")])]) "q" = some (Val.vdict r) ∧
      dcontains r "value" = false ∧ dcontains r "derived" = false ∧
      dcontains r "min" = false ∧ dcontains r "max" = false :=
  C1_incompatibility_clearing.1
    [("q", Val.vdict [("value", Val.vint 1), ("min", Val.vint 0)])]
    [("q", Val.vdict [("prior", Val.vstr "u")])] "q" [("prior", Val.vstr "u")]
    (by decide) (by decide) (by decide)

/-- C3: the key order of `merge_params_info`'s output is the concatenation of
the layers' key sequences in reverse layer order, keeping only the first
occurrence of each key.  In particular, with two layers L1, L2 (L2 applied
last), a parameter present in both appears at the position L2's order gives it,
and parameters absent from L2 follow in L1's relative order. -/
theorem C3_merge_key_order (params_infos : List PyDict) (default_derived : Bool) :
    dictKeys (merge_params_info params_infos default_derived) =
      dedupFirst ((params_infos.reverse.map dictKeys).flatten) := by
  simp only [merge_params_info]
  rw [dictKeys_filterMap_dfind?]
  apply List.filter_eq_self.mpr
  intro p hp
  rw [mem_dedupFirst] at hp
  have hp' : p ∈ (params_infos.map dictKeys).flatten := by
    rw [List.map_reverse] at hp
    rw [List.mem_flatten] at hp ⊢
    obtain ⟨s, hs, hps⟩ := hp
    exact ⟨s, List.mem_reverse.mp hs, hps⟩
  cases params_infos with
  | nil => simp at hp'
  | cons L0 rest =>
    simp only [List.map_cons, List.flatten_cons, List.mem_append] at hp'
    simp only [List.headD_cons, List.drop_succ_cons, List.drop_zero]
    rw [dcontains_foldl_mergeLayer]
    rcases hp' with h0 | hr
    · left
      rw [dcontains_iff_mem, dictKeys_map_pair]
      exact h0
    · right
      exact hr

/-! ## Lemmas about the default mergers -/

theorem pyEq_refl (v : Val) : pyEq v v = true := by simp [pyEq]

theorem pyEq_symm (a b : Val) : pyEq a b = pyEq b a := by
  unfold pyEq
  by_cases h : canon a = canon b
  · rw [h]
  · have h' : ¬ (canon b = canon a) := fun hh => h hh.symm
    simp [h, h']

/-- Every value the accumulator stores agrees (under Python `==`) with every
contribution of the same name. -/
def AgreesWith (contribs : List PyDict) (acc : PyDict) : Prop :=
  ∀ k q, dfind? acc k = some q → ∀ c ∈ contribs, ∀ y ∈ c, y.1 = k → pyEq q y.2 = true

/-- Any two contributions of the same name agree (under Python `==`). -/
def PairwiseAgree (contribs : List PyDict) : Prop :=
  ∀ c1 ∈ contribs, ∀ y1 ∈ c1, ∀ c2 ∈ contribs, ∀ y2 ∈ c2,
    y1.1 = y2.1 → pyEq y1.2 y2.2 = true

theorem AgreesWith_dset (contribs : List PyDict) (acc : PyDict) (x : String × Val)
    (hx : ∃ c ∈ contribs, x ∈ c) (hag : AgreesWith contribs acc)
    (hpw : PairwiseAgree contribs) : AgreesWith contribs (dset acc x.1 x.2) := by
  intro k q hq c' hc' y hy hyk
  by_cases hk : k = x.1
  · subst hk
    rw [dfind?_dset_self] at hq
    obtain ⟨c, hc, hxc⟩ := hx
    have hq' : x.2 = q := Option.some.inj hq
    subst hq'
    exact hpw c hc x hxc c' hc' y hy hyk.symm
  · rw [dfind?_dset_ne _ _ _ _ hk] at hq
    exact hag k q hq c' hc' y hy hyk

theorem addPrior_eq_dset (contribs : List PyDict) (acc : PyDict) (x : String × Val)
    (hx : ∃ c ∈ contribs, x ∈ c) (hag : AgreesWith contribs acc) :
    addPrior acc x = .ok (dset acc x.1 x.2) := by
  unfold addPrior
  have hcond : pyEq (dgetD acc x.1 x.2) x.2 = true := by
    rw [dgetD]
    cases hq : dfind? acc x.1
    · simpa using pyEq_refl x.2
    · obtain ⟨c, hc, hxc⟩ := hx
      simpa using hag x.1 _ hq c hc x hxc rfl
  simp [hcond]

theorem addDefaultParam_eq_dset (contribs : List PyDict) (acc : PyDict) (x : String × Val)
    (hx : ∃ c ∈ contribs, x ∈ c) (hag : AgreesWith contribs acc) :
    addDefaultParam acc x = .ok (dset acc x.1 x.2) := by
  unfold addDefaultParam
  cases hq : dfind? acc x.1 with
  | none => rfl
  | some prev =>
    obtain ⟨c, hc, hxc⟩ := hx
    have h1 : pyEq prev x.2 = true := hag x.1 prev hq c hc x hxc rfl
    have h2 : pyEq x.2 prev = true := by rw [pyEq_symm]; exact h1
    simp [h2]

theorem fold_items_ok (contribs : List PyDict)
    (step : PyDict → String × Val → Except PyErr PyDict)
    (hstep : ∀ acc x, (∃ c ∈ contribs, x ∈ c) → AgreesWith contribs acc →
      step acc x = .ok (dset acc x.1 x.2))
    (hpw : PairwiseAgree contribs) :
    ∀ (items : PyDict), (∀ x ∈ items, ∃ cc ∈ contribs, x ∈ cc) →
      ∀ acc, (dictKeys acc).Nodup → AgreesWith contribs acc →
      ∃ acc', items.foldlM step acc = .ok acc' ∧ (dictKeys acc').Nodup ∧
        AgreesWith contribs acc' ∧
        (∀ k, dcontains acc k = true → dcontains acc' k = true) ∧
        (∀ x ∈ items, dcontains acc' x.1 = true) := by
  intro items
  induction items with
  | nil =>
    intro _ acc hnd hag
    exact ⟨acc, rfl, hnd, hag, fun _ h => h, fun x hx => absurd hx (List.not_mem_nil x)⟩
  | cons x t ih =>
    intro hmem acc hnd hag
    have hxmem : ∃ cc ∈ contribs, x ∈ cc := hmem x (List.mem_cons_self _ _)
    have hstep' := hstep acc x hxmem hag
    have hnd' := nodup_dictKeys_dset acc x.1 x.2 hnd
    have hag' := AgreesWith_dset contribs acc x hxmem hag hpw
    obtain ⟨acc', hfold, hnd'', hag'', hmono, hcov⟩ :=
      ih (fun y hy => hmem y (List.mem_cons_of_mem _ hy)) (dset acc x.1 x.2) hnd' hag'
    refine ⟨acc', ?_, hnd'', hag'', ?_, ?_⟩
    · rw [List.foldlM_cons, hstep']
      simpa using hfold
    · intro k hk
      apply hmono
      rw [dcontains_dset]
      by_cases hkx : k = x.1
      · rw [if_pos hkx]
      · rw [if_neg hkx]; exact hk
    · intro y hy
      rcases List.mem_cons.mp hy with heq | htail
      · subst heq
        apply hmono
        rw [dcontains_dset, if_pos rfl]
      · exact hcov y htail

theorem fold_contribs_ok (contribs : List PyDict)
    (step : PyDict → String × Val → Except PyErr PyDict)
    (hstep : ∀ acc x, (∃ c ∈ contribs, x ∈ c) → AgreesWith contribs acc →
      step acc x = .ok (dset acc x.1 x.2))
    (hpw : PairwiseAgree contribs) :
    ∀ (cs : List PyDict), (∀ c ∈ cs, c ∈ contribs) →
      ∀ acc, (dictKeys acc).Nodup → AgreesWith contribs acc →
      ∃ acc', cs.foldlM (fun a c => c.foldlM step a) acc = .ok acc' ∧
        (dictKeys acc').Nodup ∧ AgreesWith contribs acc' ∧
        (∀ k, dcontains acc k = true → dcontains acc' k = true) ∧
        (∀ c ∈ cs, ∀ x ∈ c, dcontains acc' x.1 = true) := by
  intro cs
  induction cs with
  | nil =>
    intro _ acc hnd hag
    exact ⟨acc, rfl, hnd, hag, fun _ h => h, fun c hc => absurd hc (List.not_mem_nil c)⟩
  | cons c t ih =>
    intro hmem acc hnd hag
    have hc : c ∈ contribs := hmem c (List.mem_cons_self _ _)
    obtain ⟨acc1, hfold1, hnd1, hag1, hmono1, hcov1⟩ :=
      fold_items_ok contribs step hstep hpw c (fun x hx => ⟨c, hc, hx⟩) acc hnd hag
    obtain ⟨acc', hfold2, hnd2, hag2, hmono2, hcov2⟩ :=
      ih (fun c' hc' => hmem c' (List.mem_cons_of_mem _ hc')) acc1 hnd1 hag1
    refine ⟨acc', ?_, hnd2, hag2, fun k hk => hmono2 k (hmono1 k hk), ?_⟩
    · rw [List.foldlM_cons, hfold1]
      simpa using hfold2
    · intro c' hc' x hx
      rcases List.mem_cons.mp hc' with heq | htail
      · subst heq
        exact hmono2 x.1 (hcov1 x hx)
      · exact hcov2 c' htail x hx

theorem merge_priors_ok (base : PyDict) (contribs : List PyDict)
    (hnd : (dictKeys base).Nodup) (hbase : AgreesWith contribs base)
    (hpw : PairwiseAgree contribs) :
    ∃ d, merge_priors base contribs = .ok d ∧ (dictKeys d).Nodup ∧
      ∀ c ∈ contribs, ∀ x ∈ c, ∃ q, dfind? d x.1 = some q ∧ pyEq q x.2 = true := by
  obtain ⟨d, hfold, hndd, hag, _, hcov⟩ :=
    fold_contribs_ok contribs addPrior
      (fun acc x hx hag => addPrior_eq_dset contribs acc x hx hag) hpw
      contribs (fun c hc => hc) base hnd hbase
  refine ⟨d, hfold, hndd, ?_⟩
  intro c hc x hx
  have hcontains := hcov c hc x hx
  rw [dcontains] at hcontains
  cases hq : dfind? d x.1
  · rw [hq] at hcontains; simp at hcontains
  · exact ⟨_, rfl, hag x.1 _ hq c hc x hx rfl⟩

theorem merge_default_params_info_ok (defaults : PyDict)
    (hpw : PairwiseAgree (defaults.map (fun comp => asDict comp.2))) :
    ∃ d, merge_default_params_info defaults = .ok d ∧ (dictKeys d).Nodup ∧
      ∀ comp ∈ defaults, ∀ x ∈ asDict comp.2,
        ∃ q, dfind? d x.1 = some q ∧ pyEq q x.2 = true := by
  have hag0 : AgreesWith (defaults.map (fun comp => asDict comp.2)) [] := by
    intro k q hq
    exact absurd hq (by simp [dfind?])
  obtain ⟨d, hfold, hndd, hag, _, hcov⟩ :=
    fold_contribs_ok (defaults.map (fun comp => asDict comp.2)) addDefaultParam
      (fun acc x hx hag => addDefaultParam_eq_dset _ acc x hx hag) hpw
      (defaults.map (fun comp => asDict comp.2)) (fun c hc => hc) [] (by simp [dictKeys]) hag0
  have heq : merge_default_params_info defaults =
      (defaults.map (fun comp => asDict comp.2)).foldlM
        (fun a c => c.foldlM addDefaultParam a) [] := by
    rw [merge_default_params_info, List.foldlM_map]
  refine ⟨d, by rw [heq]; exact hfold, hndd, ?_⟩
  intro comp hcomp x hx
  have hcmem : asDict comp.2 ∈ defaults.map (fun comp => asDict comp.2) :=
    List.mem_map.mpr ⟨comp, hcomp, rfl⟩
  have hcontains := hcov _ hcmem x hx
  rw [dcontains] at hcontains
  cases hq : dfind? d x.1
  · rw [hq] at hcontains; simp at hcontains
  · exact ⟨_, rfl, hag x.1 _ hq _ hcmem x hx rfl⟩

/-- C2: during resolution, a component-contributed prior whose name already has
a different definition in the accumulating resolved prior block is a hard error
(first conjunct, the step `addPrior` of `update_info`'s prior loop); if every
contribution agrees with the raw prior block and with every other contribution
of the same name, the prior merge succeeds and each contributed name appears
exactly once (duplicate-free keys) with its agreed value (second conjunct).
Likewise for `merge_default_params_info`: two components contributing unequal
default infos for the same parameter fail (third conjunct), while agreeing
contributions succeed with the value appearing once (fourth conjunct). -/
theorem C2_conflicting_defaults :
    (∀ (acc : PyDict) (n : String) (p p' : Val), dfind? acc n = some p' →
        pyEq p' p = false →
        addPrior acc (n, p) = .error (.duplicatePriorName n)) ∧
    (∀ (base : PyDict) (contribs : List PyDict), (dictKeys base).Nodup →
        AgreesWith contribs base → PairwiseAgree contribs →
        ∃ d, merge_priors base contribs = .ok d ∧ (dictKeys d).Nodup ∧
          ∀ c ∈ contribs, ∀ x ∈ c, ∃ q, dfind? d x.1 = some q ∧ pyEq q x.2 = true) ∧
    (∀ (merged : PyDict) (p : String) (info prev : Val), dfind? merged p = some prev →
        pyEq info prev = false →
        addDefaultParam merged (p, info) = .error (.inconsistentParamDefault p)) ∧
    (∀ (defaults : PyDict),
        PairwiseAgree (defaults.map (fun comp => asDict comp.2)) →
        ∃ d, merge_default_params_info defaults = .ok d ∧ (dictKeys d).Nodup ∧
          ∀ comp ∈ defaults, ∀ x ∈ asDict comp.2,
            ∃ q, dfind? d x.1 = some q ∧ pyEq q x.2 = true) := by
  refine ⟨?_, merge_priors_ok, ?_, merge_default_params_info_ok⟩
  · intro acc n p p' hfind hne
    unfold addPrior
    have : dgetD acc n p = p' := by rw [dgetD, hfind]; rfl
    rw [this, hne]
    simp
  · intro merged p info prev hfind hne
    unfold addDefaultParam
    rw [hfind]
    simp [hne]

/-- Witness for C2 at concrete inputs: a second definition `2` for prior `a`
already defined as `1` errors; two components contributing the identical prior
`a: 1` merge successfully with `a` appearing once; the same for parameter
defaults. -/
theorem C2_conflicting_defaults_witness :
    (addPrior [("a", Val.vint 1)] ("a", Val.vint 2) =
      .error (.duplicatePriorName "a")) ∧
    (∃ d, merge_priors [] [[("a", Val.vint 1)], [("a", Val.vint 1)]] = .ok d ∧
      (dictKeys d).Nodup ∧
      ∀ c ∈ [[("a", Val.vint 1)], [("a", Val.vint 1)]], ∀ x ∈ c,
        ∃ q, dfind? d x.1 = some q ∧ pyEq q x.2 = true) ∧
    (addDefaultParam [("p", Val.vint 1)] ("p", Val.vint 2) =
      .error (.inconsistentParamDefault "p")) ∧
    (∃ d, merge_default_params_info
        [("lik1", Val.vdict [("p", Val.vint 1)]), ("lik2", Val.vdict [("p", Val.vint 1)])] =
        .ok d ∧ (dictKeys d).Nodup ∧
      ∀ comp ∈ [("lik1", Val.vdict [("p", Val.vint 1)]), ("lik2", Val.vdict [("p", Val.vint 1)])],
        ∀ x ∈ asDict comp.2, ∃ q, dfind? d x.1 = some q ∧ pyEq q x.2 = true) :=
  ⟨C2_conflicting_defaults.1 [("a", Val.vint 1)] "a" (Val.vint 2) (Val.vint 1) rfl (by decide),
   C2_conflicting_defaults.2.1 [] [[("a", Val.vint 1)], [("a", Val.vint 1)]]
     (by decide) (fun k q hq => nomatch hq) (by unfold PairwiseAgree; decide),
   C2_conflicting_defaults.2.2.1 [("p", Val.vint 1)] "p" (Val.vint 2) (Val.vint 1) rfl (by decide),
   C2_conflicting_defaults.2.2.2
     [("lik1", Val.vdict [("p", Val.vint 1)]), ("lik2", Val.vdict [("p", Val.vint 1)])]
     (by unfold PairwiseAgree; decide)⟩

/-! ## Lemmas about the option check -/

theorem fuzzy_match_length_le (s : String) (available : List String) (n : Nat) :
    (fuzzy_match s available n).length ≤ n :=
  List.length_take_le n _

/-- C4: for every component entry processed during resolution (the check of
`update_info` lines 294-313, embedded as `checkOptions` and invoked by
`processComponent`): if some entry option key is not in the union of the
reserved names, the resolved default option keys and the annotation names, the
check fails with a hard error reporting exactly the unrecognized options, each
with at most 3 fuzzy-matched suggestions drawn from the available set (first
conjunct); if every entry option is in that union, no unrecognized-option error
is raised (second conjunct). -/
theorem C4_unrecognized_options :
    (∀ (block component : String) (entryD dci : PyDict) (annots : List String),
        (∃ k ∈ dictKeys entryD, k ∉ reservedOpts ∧ k ∉ dictKeys dci ∧ k ∉ annots) →
        ∃ alts, checkOptions block component entryD dci annots =
            .error (.unrecognizedOptions block component alts) ∧
          (∀ k, k ∈ alts.map Prod.fst ↔ (k ∈ dictKeys entryD ∧
            k ∉ reservedOpts ∧ k ∉ dictKeys dci ∧ k ∉ annots)) ∧
          (∀ pr ∈ alts, pr.2.length ≤ 3 ∧ ∀ s ∈ pr.2,
            s ∈ ["external", "class_name", "requires", "renames"] ++ dictKeys dci)) ∧
    (∀ (block component : String) (entryD dci : PyDict) (annots : List String),
        (∀ k ∈ dictKeys entryD, k ∈ reservedOpts ∨ k ∈ dictKeys dci ∨ k ∈ annots) →
        checkOptions block component entryD dci annots = .ok ()) := by
  constructor
  · intro block component entryD dci annots hex
    obtain ⟨k0, hk0, hr0, hd0, ha0⟩ := hex
    unfold checkOptions
    have hk0mem : k0 ∈ dedupFirst ((dictKeys entryD).filter
        (fun k => k ∉ reservedOpts ∧ k ∉ dictKeys dci ∧ k ∉ annots)) := by
      rw [mem_dedupFirst, List.mem_filter]
      exact ⟨hk0, by simp [hr0, hd0, ha0]⟩
    have hne : ¬ ((dedupFirst ((dictKeys entryD).filter
        (fun k => k ∉ reservedOpts ∧ k ∉ dictKeys dci ∧ k ∉ annots))).isEmpty = true) := by
      cases hcase : dedupFirst ((dictKeys entryD).filter
          (fun k => k ∉ reservedOpts ∧ k ∉ dictKeys dci ∧ k ∉ annots)) with
      | nil => rw [hcase] at hk0mem; cases hk0mem
      | cons a t => simp
    rw [if_neg hne]
    refine ⟨_, rfl, ?_, ?_⟩
    · intro k
      rw [List.map_map]
      have hmapid : (Prod.fst ∘ fun o => (o, fuzzy_match o (strSet
          (["external", "class_name", "requires", "renames"] ++ dictKeys dci)) 3)) = id := by
        funext o; rfl
      rw [hmapid, List.map_id, mem_dedupFirst, List.mem_filter]
      constructor
      · intro hk
        have h2 := hk.2
        simp only [decide_eq_true_eq] at h2
        exact ⟨hk.1, h2.1, h2.2.1, h2.2.2⟩
      · intro hk
        exact ⟨hk.1, by simp [hk.2.1, hk.2.2.1, hk.2.2.2]⟩
    · intro pr hpr
      rw [List.mem_map] at hpr
      obtain ⟨o, _, hpo⟩ := hpr
      subst hpo
      refine ⟨fuzzy_match_length_le _ _ _, ?_⟩
      intro s hs
      unfold fuzzy_match at hs
      have hs' := List.mem_of_mem_take hs
      rw [List.mem_filter] at hs'
      have := hs'.1
      rw [mem_strSet] at this
      exact this
  · intro block component entryD dci annots hall
    unfold checkOptions
    have hnil : (dictKeys entryD).filter
        (fun k => k ∉ reservedOpts ∧ k ∉ dictKeys dci ∧ k ∉ annots) = [] := by
      rw [List.filter_eq_nil_iff]
      intro k hk
      rcases hall k hk with h | h | h <;> simp [h]
    rw [hnil]
    rfl

/-- Witness for C4 at concrete inputs: an entry with the unknown option
`badopt` errors with it reported and at most 3 suggestions; an entry whose
only option is a default option key passes. -/
theorem C4_unrecognized_options_witness :
    (∃ alts, checkOptions "likelihood" "A" [("badopt", Val.vint 1)]
        [("goodopt", Val.vnone)] [] =
        .error (.unrecognizedOptions "likelihood" "A" alts) ∧
      (∀ k, k ∈ alts.map Prod.fst ↔ (k ∈ dictKeys [("badopt", Val.vint 1)] ∧
        k ∉ reservedOpts ∧ k ∉ dictKeys [("goodopt", Val.vnone)] ∧
        k ∉ ([] : List String))) ∧
      (∀ pr ∈ alts, pr.2.length ≤ 3 ∧ ∀ s ∈ pr.2,
        s ∈ ["external", "class_name", "requires", "renames"] ++
          dictKeys [("goodopt", Val.vnone)])) ∧
    checkOptions "likelihood" "A" [("goodopt", Val.vint 1)]
      [("goodopt", Val.vnone)] [] = .ok () :=
  ⟨C4_unrecognized_options.1 "likelihood" "A" [("badopt", Val.vint 1)]
      [("goodopt", Val.vnone)] [] ⟨"badopt", by decide, by decide, by decide, by decide⟩,
   C4_unrecognized_options.2 "likelihood" "A" [("goodopt", Val.vint 1)]
      [("goodopt", Val.vnone)] [] (by decide)⟩

/-! ## Lemmas about the class-hierarchy defaults merger -/

theorem optOr_none_right (a : Option Val) : optOr a none = a := by
  cases a <;> rfl

theorem get_defaults_mk (bases : List Cls) (own : PyDict) :
    Cls.get_defaults (Cls.mk bases own) = dupdate (Cls.updBases own bases) own := by
  rw [Cls.get_defaults]

theorem updBases_nil (d : PyDict) : Cls.updBases d [] = d := by
  rw [Cls.updBases]

theorem updBases_cons (d : PyDict) (b : Cls) (bs : List Cls) :
    Cls.updBases d (b :: bs) = Cls.updBases (dupdate d (Cls.get_defaults b)) bs := by
  rw [Cls.updBases]

theorem dfind?_updBases_shift (bs : List Cls) (d : PyDict) (k : String) :
    dfind? (Cls.updBases d bs) k =
      optOr (dfind? (Cls.updBases [] bs) k) (dfind? d k) := by
  induction bs generalizing d with
  | nil =>
    rw [updBases_nil, updBases_nil]
    rfl
  | cons b t ih =>
    rw [updBases_cons, updBases_cons, ih (dupdate d (Cls.get_defaults b)),
      ih (dupdate [] (Cls.get_defaults b)), dfind?_dupdate d (Cls.get_defaults b) k,
      dfind?_dupdate [] (Cls.get_defaults b) k]
    have hnil : dfind? ([] : PyDict) k = none := rfl
    rw [hnil, optOr_none_right, optOr_assoc]

theorem dcontains_updBases_nil_false (bs : List Cls) (k : String)
    (h : ∀ b ∈ bs, dcontains (Cls.get_defaults b) k = false) :
    dfind? (Cls.updBases [] bs) k = none := by
  induction bs with
  | nil => rw [updBases_nil]; rfl
  | cons b t ih =>
    rw [updBases_cons, dfind?_updBases_shift]
    rw [ih (fun b' hb' => h b' (List.mem_cons_of_mem _ hb'))]
    rw [optOr_none]
    have hb := h b (List.mem_cons_self _ _)
    rw [dfind?_dupdate]
    have hnil : dfind? ([] : PyDict) k = none := rfl
    rw [hnil, optOr_none_right]
    have := dcontains_dupdate_nil (Cls.get_defaults b) k
    rw [hb] at this
    rw [dcontains] at this
    cases hf : dfind? (dupdate [] (Cls.get_defaults b)) k
    · rfl
    · rw [hf] at this; simp at this

theorem dfind?_get_defaults (bases : List Cls) (own : PyDict) (k : String)
    (h : (dictKeys own).Nodup) :
    dfind? (Cls.get_defaults (Cls.mk bases own)) k =
      optOr (dfind? own k) (dfind? (Cls.updBases [] bases) k) := by
  rw [get_defaults_mk, dfind?_dupdate, dfind?_dupdate_nil_nodup own k h,
    dfind?_updBases_shift]
  cases ho : dfind? own k
  · rw [optOr_none_right, optOr_none]
  · rw [optOr_some]
    rfl

theorem dedupFirst_append (A B : List String) :
    dedupFirst (A ++ B) = dedupFirst A ++ (dedupFirst B).filter (fun x => x ∉ A) := by
  induction A with
  | nil => simp [dedupFirst]
  | cons a t ih =>
    show a :: (dedupFirst (t ++ B)).filter (fun x => x ≠ a) =
      (a :: (dedupFirst t).filter (fun x => x ≠ a)) ++
        (dedupFirst B).filter (fun x => x ∉ a :: t)
    rw [ih, List.filter_append]
    simp only [List.cons_append, List.cons.injEq, true_and]
    congr 1
    rw [List.filter_filter]
    apply List.filter_congr
    intro x _
    by_cases hxa : x = a
    · subst hxa; simp
    · by_cases hxt : x ∈ t <;> simp [hxa, hxt]

theorem dictKeys_updBases (bs : List Cls) (d : PyDict) :
    dictKeys (Cls.updBases d bs) =
      dictKeys d ++ dedupFirst
        (((bs.map (fun b => dictKeys (Cls.get_defaults b))).flatten).filter
          (fun k => !(dcontains d k))) := by
  induction bs generalizing d with
  | nil => simp [updBases_nil, dedupFirst]
  | cons b t ih =>
    rw [updBases_cons, ih (dupdate d (Cls.get_defaults b)), dictKeys_dupdate]
    simp only [List.map_cons, List.flatten_cons, List.filter_append, List.append_assoc]
    congr 1
    rw [dedupFirst_append]
    congr 1
    have hpred : ((t.map (fun b => dictKeys (Cls.get_defaults b))).flatten).filter
        (fun k => !(dcontains (dupdate d (Cls.get_defaults b)) k)) =
      (((t.map (fun b => dictKeys (Cls.get_defaults b))).flatten).filter
        (fun k => !(dcontains d k))).filter
          (fun k => !(dcontains (Cls.get_defaults b) k)) := by
      rw [List.filter_filter]
      apply List.filter_congr
      intro x _
      rw [dcontains_dupdate]
      cases hd : dcontains d x <;> cases hg : dcontains (Cls.get_defaults b) x <;> simp
    rw [hpred, dedupFirst_filter]
    apply List.filter_congr
    intro x hx
    have hxd : dcontains d x = false := by
      rw [mem_dedupFirst, List.mem_filter] at hx
      simpa using hx.2
    by_cases hg : dcontains (Cls.get_defaults b) x
    · have hmem : x ∈ (dictKeys (Cls.get_defaults b)).filter (fun k => !(dcontains d k)) := by
        rw [List.mem_filter]
        exact ⟨(dcontains_iff_mem _ _).mp hg, by simp [hxd]⟩
      simp [hg, hmem]
    · have hnm : x ∉ (dictKeys (Cls.get_defaults b)).filter (fun k => !(dcontains d k)) := by
        intro hmem
        rw [List.mem_filter] at hmem
        exact absurd ((dcontains_iff_mem _ _).mpr hmem.1) (by simp [hg])
      simp [hg, hnm]

theorem dictKeys_get_defaults (bases : List Cls) (own : PyDict) :
    dictKeys (Cls.get_defaults (Cls.mk bases own)) =
      dictKeys own ++ dedupFirst
        (((bases.map (fun b => dictKeys (Cls.get_defaults b))).flatten).filter
          (fun k => !(dcontains own k))) := by
  rw [get_defaults_mk, dictKeys_dupdate]
  have hnil : (dictKeys own).filter
      (fun k => !(dcontains (Cls.updBases own bases) k)) = [] := by
    rw [List.filter_eq_nil_iff]
    intro k hk
    have hmemk : dcontains (Cls.updBases own bases) k = true := by
      rw [dcontains_iff_mem, dictKeys_updBases]
      exact List.mem_append_left _ hk
    simp [hmemk]
  rw [hnil]
  show dictKeys (Cls.updBases own bases) ++ dedupFirst [] = _
  rw [dictKeys_updBases]
  simp [dedupFirst]

/-- C7: for every class participating in the defaults protocol,
`get_defaults` returns the recursive merge of its base classes' defaults
(`Cls.updBases [] bases`, the fold of the bases' recursive defaults into an
empty dict) overlaid by the class's own declared defaults: on a key collision
the class's own value wins over any base-class value (first conjunct, the
lookup identity), and the output's key order lists the most-derived class's
own keys first, followed by the keys appearing only in base classes (second
conjunct). -/
theorem C7_get_defaults_merge (bases : List Cls) (own : PyDict)
    (h : (dictKeys own).Nodup) :
    (∀ k, dfind? (Cls.get_defaults (Cls.mk bases own)) k =
      optOr (dfind? own k) (dfind? (Cls.updBases [] bases) k)) ∧
    dictKeys (Cls.get_defaults (Cls.mk bases own)) =
      dictKeys own ++ dedupFirst
        (((bases.map (fun b => dictKeys (Cls.get_defaults b))).flatten).filter
          (fun k => !(dcontains own k))) :=
  ⟨fun k => dfind?_get_defaults bases own k h, dictKeys_get_defaults bases own⟩

/-- Witness for C7 at a concrete hierarchy: a class with own defaults
`{a: 1}` over a base with defaults `{a: 2, b: 3}`: `a` keeps the derived
class's value `1`, and the key order is `[a, b]`. -/
theorem C7_get_defaults_merge_witness :
    ((∀ k, dfind? (Cls.get_defaults (Cls.mk
        [Cls.mk [] [("a", Val.vint 2), ("b", Val.vint 3)]] [("a", Val.vint 1)])) k =
      optOr (dfind? [("a", Val.vint 1)] k)
        (dfind? (Cls.updBases [] [Cls.mk [] [("a", Val.vint 2), ("b", Val.vint 3)]]) k)) ∧
    dictKeys (Cls.get_defaults (Cls.mk
        [Cls.mk [] [("a", Val.vint 2), ("b", Val.vint 3)]] [("a", Val.vint 1)])) =
      dictKeys [("a", Val.vint 1)] ++ dedupFirst
        ((([Cls.mk [] [("a", Val.vint 2), ("b", Val.vint 3)]].map
            (fun b => dictKeys (Cls.get_defaults b))).flatten).filter
          (fun k => !(dcontains [("a", Val.vint 1)] k)))) ∧
    dfind? (Cls.get_defaults (Cls.mk
        [Cls.mk [] [("a", Val.vint 2), ("b", Val.vint 3)]] [("a", Val.vint 1)])) "a" =
      some (Val.vint 1) :=
  ⟨C7_get_defaults_merge [Cls.mk [] [("a", Val.vint 2), ("b", Val.vint 3)]]
    [("a", Val.vint 1)] (by decide), rfl⟩

/-! ## Lemmas about the equivalence checker -/

theorem popAll_nil (d : PyDict) : popAll d [] = d := rfl

theorem popAll_cons (d : PyDict) (a : String) (t : List String) :
    popAll d (a :: t) = popAll (derase d a) t := rfl

theorem derase_comm (d : PyDict) (a b : String) :
    derase (derase d a) b = derase (derase d b) a := by
  unfold derase
  rw [List.filter_filter, List.filter_filter]
  apply List.filter_congr
  intro x _
  rw [Bool.and_comm]

theorem derase_idem (d : PyDict) (a : String) :
    derase (derase d a) a = derase d a := by
  unfold derase
  rw [List.filter_filter]
  apply List.filter_congr
  intro x _
  rw [Bool.and_self]

theorem popAll_derase_mem (d : PyDict) (k : String) (ks : List String) (h : k ∈ ks) :
    popAll (derase d k) ks = popAll d ks := by
  induction ks generalizing d with
  | nil => cases h
  | cons a t ih =>
    rw [popAll_cons, popAll_cons]
    rcases List.mem_cons.mp h with heq | ht
    · subst heq
      rw [derase_idem]
    · rw [derase_comm d k a]
      exact ih (derase d a) ht

theorem ebind_ok {α β : Type} (a : α) (f : α → Except PyErr β) :
    (Except.ok a : Except PyErr α) >>= f = f a := rfl

theorem kindsList_contains_of_mem (b : String) (hb : b ∈ kindsList) :
    kindsList.contains b = true := by
  simp only [kindsList, List.mem_cons, List.not_mem_nil, or_false] at hb
  rcases hb with h | h | h <;> (rw [h]; rfl)

theorem resolveIgnoreExtra_ok (reg : Registry) (b k : String) (d1 : PyDict)
    (hreg : ∀ n b' cp cn, (∃ c, reg.resolveClass n b' cp cn = Except.ok c) ∨
      reg.resolveClass n b' cp cn = Except.error .importError) :
    ∃ pe, resolveIgnoreExtra reg b k d1 = .ok pe ∧
      ∀ P : List String, "component_path" ∈ P →
        popAll pe.1 (P ++ pe.2) = popAll d1 (P ++ pe.2) := by
  unfold resolveIgnoreExtra
  by_cases hext : dcontains d1 "external"
  · rw [if_neg (by simp [hext])]
    exact ⟨(d1, []), rfl, fun P _ => rfl⟩
  · rw [if_pos (by simp [hext])]
    rcases hreg k b (dfind? d1 "component_path")
        (dfind? (derase d1 "component_path") "class_name") with ⟨cls, hok⟩ | himp
    · rw [hok]
      refine ⟨(derase d1 "component_path", cls.preferNew), rfl, ?_⟩
      intro P hP
      exact popAll_derase_mem d1 "component_path" _ (List.mem_append_left _ hP)
    · rw [himp]
      refine ⟨(derase d1 "component_path", []), rfl, ?_⟩
      intro P hP
      exact popAll_derase_mem d1 "component_path" _ (List.mem_append_left _ hP)

theorem compareComponentPair_equal (reg : Registry) (b : String) (K : List String)
    (k : String) (r : PyDict) (hb : b ∈ kindsList)
    (hreg : ∀ n b' cp cn, (∃ c, reg.resolveClass n b' cp cn = Except.ok c) ∨
      reg.resolveClass n b' cp cn = Except.error .importError) :
    ∃ x, compareComponentPair reg false b K k (Val.vdict r) (Val.vdict r) = .ok (x, x) := by
  unfold compareComponentPair
  rw [if_pos ⟨by simp, kindsList_contains_of_mem b hb⟩]
  obtain ⟨pe, hpe, hpop⟩ := resolveIgnoreExtra_ok reg b k r hreg
  refine ⟨Val.vdict (popAll r ((K ++ ["component_path"]) ++ pe.2)), ?_⟩
  show (do
    let pe ← resolveIgnoreExtra reg b k r
    pure (Val.vdict (popAll pe.1 ((K ++ ["component_path"]) ++ pe.2)),
          Val.vdict (popAll r ((K ++ ["component_path"]) ++ pe.2)))) =
    Except.ok (Val.vdict (popAll r ((K ++ ["component_path"]) ++ pe.2)),
      Val.vdict (popAll r ((K ++ ["component_path"]) ++ pe.2)))
  rw [hpe, ebind_ok, hpop (K ++ ["component_path"])
    (List.mem_append_right _ (List.mem_singleton.mpr rfl))]
  rfl

theorem checkComponents_all_equal (reg : Registry) (b : String) (K : List String)
    (d1 d2 : PyDict) (hb : b ∈ kindsList)
    (hvals : ∀ k, dfind? d1 k = dfind? d2 k)
    (hdict : ∀ k v, dfind? d1 k = some v → ∃ r, v = Val.vdict r)
    (hreg : ∀ n b' cp cn, (∃ c, reg.resolveClass n b' cp cn = Except.ok c) ∨
      reg.resolveClass n b' cp cn = Except.error .importError) :
    ∀ ks, (∀ k ∈ ks, k ∈ dictKeys d1) →
      checkComponents reg false b K d1 d2 ks = .ok true := by
  intro ks
  induction ks with
  | nil => intro _; rfl
  | cons k t ih =>
    intro hks
    have hk1 : k ∈ dictKeys d1 := hks k (List.mem_cons_self _ _)
    have hsome : (dfind? d1 k).isSome = true := (dcontains_iff_mem d1 k).mpr hk1
    cases hf : dfind? d1 k with
    | none => rw [hf] at hsome; simp at hsome
    | some v =>
      obtain ⟨r, hr⟩ := hdict k v hf
      subst hr
      have hv1 : dgetD d1 k Val.vnone = Val.vdict r := by rw [dgetD, hf]; rfl
      have hv2 : dgetD d2 k Val.vnone = Val.vdict r := by
        rw [dgetD, ← hvals k, hf]; rfl
      obtain ⟨x, hx⟩ := compareComponentPair_equal reg b K k r hb hreg
      show (do
        let cmp ← compareComponentPair reg false b K k (dgetD d1 k Val.vnone)
          (dgetD d2 k Val.vnone)
        if pyEq cmp.1 cmp.2 then checkComponents reg false b K d1 d2 t
        else .ok false) = .ok true
      rw [hv1, hv2, hx, ebind_ok]
      have hpp : pyEq (x, x).1 (x, x).2 = true := pyEq_refl x
      rw [hpp, if_pos rfl]
      exact ih (fun k' hk' => hks k' (List.mem_cons_of_mem _ hk'))

theorem kinds_ne_params (b : String) (hb : b ∈ kindsList) : ¬ (b = "params") := by
  simp only [kindsList, List.mem_cons, List.not_mem_nil, or_false] at hb
  rcases hb with h | h | h <;> (subst h; decide)

theorem kinds_not_root_ignored (b : String) (hb : b ∈ kindsList) :
    ignoredRootKeys.contains b = false := by
  simp only [kindsList, List.mem_cons, List.not_mem_nil, or_false] at hb
  rcases hb with h | h | h <;> (subst h; decide)

theorem dgetD_single_self (b : String) (v dflt : Val) :
    dgetD [(b, v)] b dflt = v := by
  rw [dgetD]
  show (if b = b then some v else none).getD dflt = v
  rw [if_pos rfl]
  rfl

theorem dcontains_single_self (b : String) (v : Val) :
    dcontains [(b, v)] b = true := by
  rw [dcontains]
  show (if b = b then some v else none).isSome = true
  rw [if_pos rfl]
  rfl

theorem nonNullKeys_single_vdict (b : String) (d : PyDict) (ig : List String)
    (hb : ig.contains b = false) :
    nonNullKeys [(b, Val.vdict d)] ig = strSet [b] := by
  unfold nonNullKeys
  have h1 : dictKeys [(b, Val.vdict d)] = [b] := rfl
  rw [h1]
  have h2 : [b].filter (fun k => ¬ isNoneVal (dgetD [(b, Val.vdict d)] k Val.vnone)) = [b] := by
    rw [List.filter_eq_self]
    intro a ha
    rw [List.mem_singleton] at ha
    subst ha
    rw [dgetD_single_self]
    simp [isNoneVal]
  rw [h2]
  have h3 : [b].filter (fun k => ¬ ig.contains k) = [b] := by
    rw [List.filter_eq_self]
    intro a ha
    rw [List.mem_singleton] at ha
    subst ha
    have : a ∉ ig := by
      intro hm
      have h' : ig.elem a = true := List.elem_eq_true_of_mem hm
      rw [List.contains, h'] at hb
      cases hb
    simp [this]
  rw [h3]

theorem checkBlocks_single_strict_false (reg : Registry) (b : String)
    (d1 d2 : PyDict) (ig : List String) (hig : ig.contains b = false)
    (hk : dictKeys d1 ≠ dictKeys d2) :
    checkBlocks reg true ig [(b, Val.vdict d2)] [(b, Val.vdict d1)] = .ok false := by
  have hcond : ¬ (ig.contains b = true ∨ ¬ dcontains [(b, Val.vdict d2)] b = true) := by
    rw [hig, dcontains_single_self]
    simp
  unfold checkBlocks
  rw [if_neg hcond]
  simp only [dgetD_single_self]
  have hdec : decide (dictKeys d1 = dictKeys d2) = false := by simp [hk]
  simp [hdec]

theorem checkBlocks_single_nonstrict_true (reg : Registry) (b : String)
    (d1 d2 : PyDict) (ig : List String) (hig : ig.contains b = false)
    (hb : b ∈ kindsList)
    (hset : strSet (dictKeys d1) = strSet (dictKeys d2))
    (hvals : ∀ k, dfind? d1 k = dfind? d2 k)
    (hdict : ∀ k v, dfind? d1 k = some v → ∃ r, v = Val.vdict r)
    (hreg : ∀ n b' cp cn, (∃ c, reg.resolveClass n b' cp cn = Except.ok c) ∨
      reg.resolveClass n b' cp cn = Except.error .importError) :
    checkBlocks reg false ig [(b, Val.vdict d2)] [(b, Val.vdict d1)] = .ok true := by
  have hcond : ¬ (ig.contains b = true ∨ ¬ dcontains [(b, Val.vdict d2)] b = true) := by
    rw [hig, dcontains_single_self]
    simp
  unfold checkBlocks
  rw [if_neg hcond]
  simp only [dgetD_single_self]
  have hdec : decide (strSet (dictKeys d1) = strSet (dictKeys d2)) = true := by
    simp [hset]
  have hbp : ¬ (¬False ∧ b = "params") :=
    fun hand => kinds_ne_params b hb hand.2
  simp only [Bool.false_eq_true, if_false, hdec, if_true]
  rw [if_neg hbp]
  rw [checkComponents_all_equal reg b _ d1 d2 hb hvals hdict hreg _ (fun k h => h)]
  rfl

/-- A registry whose every class lookup fails with `ImportError` (a run where no
component package is installed); used as a concrete collaborator instance. -/
def regAllFail : Registry where
  getDefaultInfo := fun _ _ _ _ _ => .error .importError
  extClassDefaultInfo := fun _ _ _ => .error .importError
  baseClassDefaults := fun _ => []
  resolveClass := fun _ _ _ _ => .error .importError

/-- `{"theory": {"A": {}, "B": {}}}`. -/
def thAB : PyDict := [("theory", Val.vdict [("A", Val.vdict []), ("B", Val.vdict [])])]

/-- `{"theory": {"B": {}, "A": {}}}`. -/
def thBA : PyDict := [("theory", Val.vdict [("B", Val.vdict []), ("A", Val.vdict [])])]

/-- C6: for two resolved configs holding a single kind block with the same
components and the same contents but listed in different orders,
`is_equal_info` returns `False` under `strict=True` (first-level key order is
compared as ordered lists) and `True` under `strict=False` (key sets are
compared as sets); in particular
`is_equal({"theory": {"A": {}, "B": {}}}, {"theory": {"B": {}, "A": {}}}, strict=False)`
is true and the same call with `strict=True` is false. -/
theorem C6_is_equal_order (reg : Registry) (b : String) (d1 d2 : PyDict)
    (hb : b ∈ kindsList)
    (hk : dictKeys d1 ≠ dictKeys d2)
    (hset : strSet (dictKeys d1) = strSet (dictKeys d2))
    (hvals : ∀ k, dfind? d1 k = dfind? d2 k)
    (hdict : ∀ k v, dfind? d1 k = some v → ∃ r, v = Val.vdict r)
    (hreg : ∀ n b' cp cn, (∃ c, reg.resolveClass n b' cp cn = Except.ok c) ∨
      reg.resolveClass n b' cp cn = Except.error .importError) :
    (is_equal_info reg [(b, Val.vdict d1)] [(b, Val.vdict d2)] true [] = .ok false ∧
     is_equal_info reg [(b, Val.vdict d1)] [(b, Val.vdict d2)] false [] = .ok true) ∧
    (is_equal_info regAllFail thAB thBA false [] = .ok true ∧
     is_equal_info regAllFail thAB thBA true [] = .ok false) := by
  refine ⟨⟨?_, ?_⟩, rfl, rfl⟩
  · show (if nonNullKeys [(b, Val.vdict d1)] [] = nonNullKeys [(b, Val.vdict d2)] [] then
        checkBlocks reg true [] [(b, Val.vdict d2)] [(b, Val.vdict d1)]
      else Except.ok false) = Except.ok false
    rw [nonNullKeys_single_vdict b d1 [] rfl, nonNullKeys_single_vdict b d2 [] rfl,
      if_pos rfl]
    exact checkBlocks_single_strict_false reg b d1 d2 [] rfl hk
  · have hig : ignoredRootKeys.contains b = false := kinds_not_root_ignored b hb
    show (if nonNullKeys [(b, Val.vdict d1)] ignoredRootKeys
          = nonNullKeys [(b, Val.vdict d2)] ignoredRootKeys then
        checkBlocks reg false ignoredRootKeys [(b, Val.vdict d2)] [(b, Val.vdict d1)]
      else Except.ok false) = Except.ok true
    rw [nonNullKeys_single_vdict b d1 _ hig, nonNullKeys_single_vdict b d2 _ hig,
      if_pos rfl]
    exact checkBlocks_single_nonstrict_true reg b d1 d2 _ hig hb hset hvals hdict hreg

theorem C6_is_equal_order_witness :
    is_equal_info regAllFail [("theory", Val.vdict [("A", Val.vdict []), ("B", Val.vdict [])])]
      [("theory", Val.vdict [("B", Val.vdict []), ("A", Val.vdict [])])] true []
      = .ok false ∧
    is_equal_info regAllFail [("theory", Val.vdict [("A", Val.vdict []), ("B", Val.vdict [])])]
      [("theory", Val.vdict [("B", Val.vdict []), ("A", Val.vdict [])])] false []
      = .ok true := by
  have h := C6_is_equal_order regAllFail "theory"
    [("A", Val.vdict []), ("B", Val.vdict [])] [("B", Val.vdict []), ("A", Val.vdict [])]
    (by decide) (by decide) rfl
    (fun k => by
      by_cases hA : k = "A"
      · subst hA; rfl
      · by_cases hB : k = "B"
        · subst hB; rfl
        · have hA' : ¬ ("A" = k) := fun h' => hA h'.symm
          have hB' : ¬ ("B" = k) := fun h' => hB h'.symm
          simp only [dfind?, if_neg hA', if_neg hB'])
    (fun k v h => by
      by_cases hA : k = "A"
      · subst hA
        have h' : some (Val.vdict []) = some v := h
        exact ⟨[], (Option.some.inj h').symm⟩
      · by_cases hB : k = "B"
        · subst hB
          have h' : some (Val.vdict []) = some v := h
          exact ⟨[], (Option.some.inj h').symm⟩
        · have hA' : ¬ ("A" = k) := fun h' => hA h'.symm
          have hB' : ¬ ("B" = k) := fun h' => hB h'.symm
          simp only [dfind?, if_neg hA', if_neg hB'] at h
          exact Option.noConfusion h)
    (fun _ _ _ _ => Or.inr rfl)
  exact ⟨h.1.1, h.1.2⟩

/-- A registry knowing one component: the likelihood `lik1`, whose defaults
declare the parameter `p2` as sampled (`prior: "U"`). -/
def regLik1 : Registry where
  getDefaultInfo := fun kind name _ _ _ =>
    if kind = "likelihood" ∧ name = "lik1" then
      .ok ([("params", Val.vdict [("p2", Val.vdict [("prior", Val.vstr "U")])])], [])
    else .error .importError
  extClassDefaultInfo := fun _ _ _ => .error .importError
  baseClassDefaults := fun _ => []
  resolveClass := fun _ _ _ _ => .error .importError

/-- Raw config: `lik1` plus a user `params` block that adds only a `min` bound
to the defaults-declared parameter `p2`. -/
def xIdem : PyDict :=
  [("likelihood", Val.vdict [("lik1", Val.vnone)]),
   ("params", Val.vdict [("p2", Val.vdict [("min", Val.vint 0)])])]

/-- First resolution of `xIdem`: the user layer has none of `prior`, `value`,
`derived`, so nothing of the defaults layer is cleared and `min` survives next
to `prior`. -/
def yPass1 : PyDict :=
  [("likelihood", Val.vdict [("lik1", Val.vdict
      [("params", Val.vdict [("p2", Val.vdict [("prior", Val.vstr "U")])])])]),
   ("params", Val.vdict [("p2", Val.vdict [("prior", Val.vstr "U"), ("min", Val.vint 0)])])]

/-- Second resolution: now the fed-back top layer for `p2` contains `prior`, so
the merger clears the current record before updating, and `min` is dropped. -/
def yPass2 : PyDict :=
  [("likelihood", Val.vdict [("lik1", Val.vdict
      [("params", Val.vdict [("p2", Val.vdict [("prior", Val.vstr "U")])])])]),
   ("params", Val.vdict [("p2", Val.vdict [("prior", Val.vstr "U")])])]

/-- C5: resolution is NOT idempotent up to strict equivalence.  On the raw
config `xIdem` resolution succeeds, resolving the result again succeeds, but
the two resolved configs differ (`min` is kept by the first pass and dropped by
the second), and `is_equal_info(update_info(x), update_info(update_info(x)),
strict=True)` returns `False`, refuting the claimed property. -/
theorem C5_resolution_not_idempotent :
    update_info regLik1 xIdem = .ok yPass1 ∧
    update_info regLik1 yPass1 = .ok yPass2 ∧
    is_equal_info regLik1 yPass1 yPass2 true [] = .ok false ∧
    yPass1 ≠ yPass2 :=
  ⟨rfl, rfl, rfl, by decide⟩

/-- `{"likelihood": {"A": {}}}`. -/
def likA : PyDict := [("likelihood", Val.vdict [("A", Val.vdict [])])]

/-- C9: a registry lookup failure (`ImportError`) is swallowed in BOTH
`get_preferred_old_values` and `is_equal_info` — not only in the former.  In
`is_equal_info`, the resume-preference ignore-set lookup catches `ImportError`
and proceeds with an empty ignore set (conjunct 1, and concretely conjunct 3:
with a registry whose every lookup fails, comparing a likelihood config to
itself still returns `ok true` rather than propagating the failure).  In
`get_preferred_old_values` the affected component contributes no overrides
(conjuncts 2 and 4).  In `update_info` the failure is fatal (conjunct 5). -/
theorem C9_import_error_swallowed (reg : Registry) (b k : String) (d1 d : PyDict)
    (hext : dcontains d1 "external" = false)
    (h1 : reg.resolveClass k b (dfind? d1 "component_path")
      (dfind? (derase d1 "component_path") "class_name") = .error .importError)
    (h2 : reg.resolveClass k b (dfind? d "component_path")
      (dfind? (derase d "component_path") "class_name") = .error .importError) :
    resolveIgnoreExtra reg b k d1 = .ok (derase d1 "component_path", []) ∧
    preferredOldComponent reg b k (Val.vdict d)
      = .ok (none, Val.vdict (derase d "component_path")) ∧
    is_equal_info regAllFail likA likA false [] = .ok true ∧
    get_preferred_old_values regAllFail likA = .ok ([], likA) ∧
    update_info regAllFail [("likelihood", Val.vdict [("A", Val.vnone)])]
      = .error (.loggedError "Failed to get defaults for component or class") := by
  refine ⟨?_, ?_, rfl, rfl, rfl⟩
  · unfold resolveIgnoreExtra
    rw [if_pos (by simp [hext])]
    rw [h1]
  · simp only [preferredOldComponent]
    rw [h2]
    rfl

theorem C9_import_error_swallowed_witness :
    resolveIgnoreExtra regAllFail "likelihood" "A" [] = .ok ([], []) ∧
    preferredOldComponent regAllFail "likelihood" "A" (Val.vdict [])
      = .ok (none, Val.vdict []) ∧
    is_equal_info regAllFail likA likA false [] = .ok true ∧
    get_preferred_old_values regAllFail likA = .ok ([], likA) ∧
    update_info regAllFail [("likelihood", Val.vdict [("A", Val.vnone)])]
      = .error (.loggedError "Failed to get defaults for component or class") :=
  C9_import_error_swallowed regAllFail "likelihood" "A" [] [] rfl rfl rfl

/-- The mutation `get_preferred_old_values` applies to one component's options
value: a mapping loses its `component_path` entry, anything else is kept. -/
def eraseCPVal : Val → Val
  | .vdict d => Val.vdict (derase d "component_path")
  | v => v

/-- The cumulative in-place effect of `get_preferred_old_values` on `info_old`:
inside every truthy kind block, every component mapping loses its
`component_path` entry; all other entries are untouched. -/
def eraseComponentPaths (info : PyDict) : PyDict :=
  info.map (fun bv =>
    if kindsList.contains bv.1 ∧ truthy bv.2 then
      match bv.2 with
      | .vdict b => (bv.1, Val.vdict (b.map (fun kv => (kv.1, eraseCPVal kv.2))))
      | _ => bv
    else bv)

theorem dcontains_append_false (a b : PyDict) (k : String)
    (ha : dcontains a k = false) (hb : dcontains b k = false) :
    dcontains (a ++ b) k = false := by
  unfold dcontains at *
  rw [dfind?_append]
  cases hfa : dfind? a k with
  | some x => rw [hfa] at ha; exact absurd ha (by simp)
  | none => rw [optOr_none]; exact hb

theorem dset_append_of_not_contains (d : PyDict) (k : String) (v : Val)
    (h : dcontains d k = false) : dset d k v = d ++ [(k, v)] := by
  induction d with
  | nil => rfl
  | cons p t ih =>
    cases p with
    | mk k0 v0 =>
      unfold dcontains dfind? at h
      by_cases hk : k0 = k
      · rw [if_pos hk] at h
        exact absurd h (by simp)
      · rw [if_neg hk] at h
        show (if k0 = k then (k, v) :: t else (k0, v0) :: dset t k v) = _
        rw [if_neg hk, ih h]
        rfl

theorem preferredOldComponent_mutates (reg : Registry) (b k : String) (d : PyDict)
    (hreg : ∀ n b' cp cn, (∃ c, reg.resolveClass n b' cp cn = Except.ok c) ∨
      reg.resolveClass n b' cp cn = Except.error .importError) :
    ∃ o, preferredOldComponent reg b k (Val.vdict d)
      = .ok (o, Val.vdict (derase d "component_path")) := by
  rcases hreg k b (dfind? d "component_path")
      (dfind? (derase d "component_path") "class_name") with ⟨cls, hok⟩ | himp
  · by_cases he : cls.preferOld.isEmpty = true
    · refine ⟨none, ?_⟩
      simp only [preferredOldComponent]
      rw [hok]
      simp [he]
      rfl
    · refine ⟨some (k, Val.vdict ((strSet cls.preferOld).filterMap
        (fun o => (dfind? (derase d "component_path") o).map (fun x => (o, x))))), ?_⟩
      simp only [preferredOldComponent]
      rw [hok]
      simp [he]
      rfl
  · refine ⟨none, ?_⟩
    simp only [preferredOldComponent]
    rw [himp]
    rfl

theorem poStep_ok (reg : Registry) (b : String) (bacc : PyDict × PyDict)
    (kv : String × Val) (d : PyDict) (hd : kv.2 = Val.vdict d)
    (hreg : ∀ n b' cp cn, (∃ c, reg.resolveClass n b' cp cn = Except.ok c) ∨
      reg.resolveClass n b' cp cn = Except.error .importError) :
    ∃ keep, poStep reg b bacc kv
      = .ok (keep, dset bacc.2 kv.1 (Val.vdict (derase d "component_path"))) := by
  obtain ⟨o, ho⟩ := preferredOldComponent_mutates reg b kv.1 d hreg
  cases o with
  | some e =>
    refine ⟨dset bacc.1 e.1 e.2, ?_⟩
    unfold poStep
    rw [hd, ho, ebind_ok]
    rfl
  | none =>
    refine ⟨bacc.1, ?_⟩
    unfold poStep
    rw [hd, ho, ebind_ok]
    rfl

theorem dcontains_single_ne (k x : String) (v : Val) (h : ¬ (x = k)) :
    dcontains [(x, v)] k = false := by
  unfold dcontains dfind?
  rw [if_neg h]
  rfl

theorem innerFold_mutates (reg : Registry) (b : String)
    (hreg : ∀ n b' cp cn, (∃ c, reg.resolveClass n b' cp cn = Except.ok c) ∨
      reg.resolveClass n b' cp cn = Except.error .importError) :
    ∀ (cs : List (String × Val)) (acc : PyDict × PyDict),
      (∀ kv ∈ cs, ∃ d, kv.2 = Val.vdict d) →
      (dictKeys cs).Nodup →
      (∀ k ∈ dictKeys cs, dcontains acc.2 k = false) →
      ∃ keep, cs.foldlM (poStep reg b) acc
        = .ok (keep, acc.2 ++ cs.map (fun kv => (kv.1, eraseCPVal kv.2))) := by
  intro cs
  induction cs with
  | nil =>
    intro acc _ _ _
    refine ⟨acc.1, ?_⟩
    simp only [List.foldlM_nil, List.map_nil, List.append_nil]
    rfl
  | cons kv rest ih =>
    intro acc hvals hnd hfresh
    obtain ⟨d, hd⟩ := hvals kv (List.mem_cons_self _ _)
    obtain ⟨keep1, h1⟩ := poStep_ok reg b acc kv d hd hreg
    have hndc : (kv.1 :: dictKeys rest).Nodup := hnd
    have hnd' : (dictKeys rest).Nodup := hndc.of_cons
    have hhead : kv.1 ∉ dictKeys rest := (List.nodup_cons.mp hndc).1
    have hfr1 : dcontains acc.2 kv.1 = false := hfresh kv.1 (List.mem_cons_self _ _)
    have hfresh' : ∀ k ∈ dictKeys rest,
        dcontains (dset acc.2 kv.1 (Val.vdict (derase d "component_path"))) k = false := by
      intro k hk
      have hne : ¬ (kv.1 = k) := fun h => hhead (h ▸ hk)
      rw [dset_append_of_not_contains _ _ _ hfr1]
      exact dcontains_append_false _ _ _ (hfresh k (List.mem_cons_of_mem _ hk))
        (dcontains_single_ne k kv.1 _ hne)
    obtain ⟨keep, hres⟩ :=
      ih (keep1, dset acc.2 kv.1 (Val.vdict (derase d "component_path")))
        (fun kv' h => hvals kv' (List.mem_cons_of_mem _ h)) hnd' hfresh'
    refine ⟨keep, ?_⟩
    rw [List.foldlM_cons, h1, ebind_ok]
    rw [hres]
    have her : eraseCPVal kv.2 = Val.vdict (derase d "component_path") := by
      rw [hd]
      rfl
    rw [dset_append_of_not_contains _ _ _ hfr1, List.append_assoc]
    simp [her]

theorem gpoFold_mutates (reg : Registry)
    (hreg : ∀ n b' cp cn, (∃ c, reg.resolveClass n b' cp cn = Except.ok c) ∨
      reg.resolveClass n b' cp cn = Except.error .importError) :
    ∀ (info : List (String × Val)) (acc : PyDict × PyDict),
      (∀ bv ∈ info, (kindsList.contains bv.1 = true ∧ truthy bv.2 = true) →
        ∃ b, bv.2 = Val.vdict b ∧ (dictKeys b).Nodup ∧
          ∀ kv ∈ b, ∃ d, kv.2 = Val.vdict d) →
      ∃ keep, info.foldlM (gpoBlockStep reg) acc
        = .ok (keep, acc.2 ++ eraseComponentPaths info) := by
  intro info
  induction info with
  | nil =>
    intro acc _
    refine ⟨acc.1, ?_⟩
    simp only [List.foldlM_nil, eraseComponentPaths, List.map_nil, List.append_nil]
    rfl
  | cons bv rest ih =>
    intro acc hblocks
    by_cases hcond : kindsList.contains bv.1 = true ∧ truthy bv.2 = true
    · obtain ⟨b, hb, hnd, hvals⟩ := hblocks bv (List.mem_cons_self _ _) hcond
      obtain ⟨bk, bvv⟩ := bv
      simp only at hb
      subst hb
      obtain ⟨keepB, hinner⟩ := innerFold_mutates reg bk hreg b (([] : PyDict), ([] : PyDict))
        hvals hnd (fun k _ => rfl)
      have hstep : gpoBlockStep reg acc (bk, Val.vdict b)
          = .ok (if keepB.isEmpty then acc.1 else dset acc.1 bk (Val.vdict keepB),
                 acc.2 ++ [(bk, Val.vdict (b.map (fun kv => (kv.1, eraseCPVal kv.2))))]) := by
        simp only [gpoBlockStep]
        rw [if_pos hcond]
        rw [hinner, ebind_ok]
        rfl
      obtain ⟨keep, hres⟩ := ih
        (if keepB.isEmpty then acc.1 else dset acc.1 bk (Val.vdict keepB),
         acc.2 ++ [(bk, Val.vdict (b.map (fun kv => (kv.1, eraseCPVal kv.2))))])
        (fun bv' h => hblocks bv' (List.mem_cons_of_mem _ h))
      refine ⟨keep, ?_⟩
      rw [List.foldlM_cons, hstep, ebind_ok]
      rw [hres]
      simp only [eraseComponentPaths, List.map_cons]
      rw [if_pos hcond, List.append_assoc]
      rfl
    · have hstep : gpoBlockStep reg acc bv = .ok (acc.1, acc.2 ++ [(bv.1, bv.2)]) := by
        unfold gpoBlockStep
        rw [if_neg hcond]
        rfl
      obtain ⟨keep, hres⟩ := ih (acc.1, acc.2 ++ [(bv.1, bv.2)])
        (fun bv' h => hblocks bv' (List.mem_cons_of_mem _ h))
      refine ⟨keep, ?_⟩
      rw [List.foldlM_cons, hstep, ebind_ok]
      rw [hres]
      simp only [eraseComponentPaths, List.map_cons]
      rw [if_neg hcond, List.append_assoc]
      rfl

/-- `{"likelihood": {"A": {"component_path": "/x"}}}`. -/
def oldC8 : PyDict :=
  [("likelihood", Val.vdict [("A", Val.vdict [("component_path", Val.vstr "/x")])])]

/-- C8: `get_preferred_old_values` does NOT leave the old resolved config
unchanged: it pops `component_path` from each component's options in place
(line 552 operates on the input, not on a copy).  Amended statement: the old
config after the call is exactly `eraseComponentPaths` of the input — every
truthy kind block keeps its components, but each component mapping loses its
`component_path` entry (general conjunct); concretely, an input whose only
component carries `component_path: "/x"` comes back without that entry, so the
input is not preserved (second and third conjuncts). -/
theorem C8_get_preferred_mutates (reg : Registry) (info : PyDict)
    (hreg : ∀ n b' cp cn, (∃ c, reg.resolveClass n b' cp cn = Except.ok c) ∨
      reg.resolveClass n b' cp cn = Except.error .importError)
    (hblocks : ∀ bv ∈ info, (kindsList.contains bv.1 = true ∧ truthy bv.2 = true) →
      ∃ b, bv.2 = Val.vdict b ∧ (dictKeys b).Nodup ∧
        ∀ kv ∈ b, ∃ d, kv.2 = Val.vdict d) :
    (∃ keep, get_preferred_old_values reg info = .ok (keep, eraseComponentPaths info)) ∧
    get_preferred_old_values regAllFail oldC8
      = .ok ([], [("likelihood", Val.vdict [("A", Val.vdict [])])]) ∧
    eraseComponentPaths oldC8 ≠ oldC8 := by
  refine ⟨?_, rfl, by decide⟩
  exact gpoFold_mutates reg hreg info (([] : PyDict), ([] : PyDict)) hblocks

theorem C8_get_preferred_mutates_witness :
    (∃ keep, get_preferred_old_values regAllFail oldC8
      = .ok (keep, eraseComponentPaths oldC8)) ∧
    get_preferred_old_values regAllFail oldC8
      = .ok ([], [("likelihood", Val.vdict [("A", Val.vdict [])])]) ∧
    eraseComponentPaths oldC8 ≠ oldC8 :=
  C8_get_preferred_mutates regAllFail oldC8 (fun _ _ _ _ => Or.inr rfl)
    (fun bv hm _ => by
      simp only [oldC8, List.mem_singleton] at hm
      subst hm
      exact ⟨[("A", Val.vdict [("component_path", Val.vstr "/x")])], rfl, by decide,
        fun kv hkv => by
          rw [List.mem_singleton] at hkv
          subst hkv
          exact ⟨[("component_path", Val.vstr "/x")], rfl⟩⟩)

theorem dset_dset_self (d : PyDict) (k : String) (v v' : Val) :
    dset (dset d k v) k v' = dset d k v' := by
  induction d with
  | nil =>
    show dset [(k, v)] k v' = [(k, v')]
    simp [dset]
  | cons p t ih =>
    cases p with
    | mk a b =>
      by_cases h : a = k
      · subst h
        simp [dset]
      · simp only [dset, if_neg h, ih]

theorem insStr_perm (s : String) (l : List String) : (insStr s l).Perm (s :: l) := by
  induction l with
  | nil => exact List.Perm.refl _
  | cons t ts ih =>
    unfold insStr
    by_cases h : strLe s t = true
    · rw [if_pos h]
    · rw [if_neg h]
      exact (ih.cons t).trans (List.Perm.swap s t ts)

theorem sortStr_perm (l : List String) : (sortStr l).Perm l := by
  induction l with
  | nil => exact List.Perm.refl _
  | cons s ss ih => exact (insStr_perm s (sortStr ss)).trans (ih.cons s)

theorem nodup_sortStr (l : List String) (h : l.Nodup) : (sortStr l).Nodup :=
  ((sortStr_perm l).nodup_iff).mpr h

theorem get_chi2_name_inj : Function.Injective get_chi2_name := by
  intro a b h
  unfold get_chi2_name at h
  have hd : ("chi2__" ++ a).data = ("chi2__" ++ b).data := congrArg String.data h
  rw [String.data_append, String.data_append] at hd
  exact String.ext (List.append_cancel_left hd)

theorem chi2_fold_notmem :
    ∀ (K : List String) (d : PyDict) (p : String), p ∉ K.map get_chi2_name →
      dfind? (K.foldl (fun d t => dset d (get_chi2_name t) (chi2Record t)) d) p
        = dfind? d p := by
  intro K
  induction K with
  | nil => intro d p _; rfl
  | cons k rest ih =>
    intro d p hp
    rw [List.foldl_cons]
    rw [List.map_cons] at hp
    rw [ih _ p (fun hm => hp (List.mem_cons_of_mem _ hm))]
    exact dfind?_dset_ne d (get_chi2_name k) p (chi2Record k)
      (fun he => hp (he ▸ List.mem_cons_self _ _))

theorem chi2_fold_lookup :
    ∀ (K : List String) (d : PyDict) (t : String), t ∈ K →
      (K.map get_chi2_name).Nodup →
      dfind? (K.foldl (fun d t => dset d (get_chi2_name t) (chi2Record t)) d)
        (get_chi2_name t) = some (chi2Record t) := by
  intro K
  induction K with
  | nil => intro d t ht _; exact absurd ht (List.not_mem_nil t)
  | cons k rest ih =>
    intro d t ht hnd
    rw [List.map_cons] at hnd
    rw [List.foldl_cons]
    rcases List.mem_cons.mp ht with he | hmem
    · subst he
      rw [chi2_fold_notmem rest _ _ (List.nodup_cons.mp hnd).1]
      exact dfind?_dset_self d (get_chi2_name t) (chi2Record t)
    · exact ih _ t hmem (List.nodup_cons.mp hnd).2

theorem add_aggregated_lookup (param_info : PyDict) (types : List String)
    (t : String) (ht : t ∈ types) :
    dfind? (add_aggregated_chi2_params param_info types) (get_chi2_name t)
      = some (chi2Record t) := by
  unfold add_aggregated_chi2_params
  have hmem : t ∈ sortStr (dedupFirst types) :=
    (mem_sortStr _ _).mpr ((mem_dedupFirst _ _).mpr ht)
  have hnd : ((sortStr (dedupFirst types)).map get_chi2_name).Nodup :=
    (nodup_sortStr _ (nodup_dedupFirst types)).map get_chi2_name_inj
  exact chi2_fold_lookup _ param_info t hmem hnd

/-- The rename-aliasing stage touches parameter records only at their `renames`
entry: each record either survives unchanged or becomes the original record
with a (re)assigned `renames` list. -/
def RenamesOnly (ps ps' : PyDict) : Prop :=
  ∀ p, dfind? ps' p = dfind? ps p ∨
    ∃ lv, dfind? ps' p
      = some (Val.vdict (dset (asDict (dgetD ps p (Val.vdict []))) "renames" lv))

theorem RenamesOnly_refl (ps : PyDict) : RenamesOnly ps ps :=
  fun _ => Or.inl rfl

theorem RenamesOnly_trans (ps mid ps' : PyDict)
    (h1 : RenamesOnly ps mid) (h2 : RenamesOnly mid ps') : RenamesOnly ps ps' := by
  intro p
  rcases h2 p with he | ⟨lv, he⟩
  · rw [he]
    exact h1 p
  · rcases h1 p with hm | ⟨l0, hm⟩
    · refine Or.inr ⟨lv, ?_⟩
      rw [he]
      unfold dgetD
      rw [hm]
    · refine Or.inr ⟨lv, ?_⟩
      rw [he]
      have hg : asDict (dgetD mid p (Val.vdict []))
          = dset (asDict (dgetD ps p (Val.vdict []))) "renames" l0 := by
        unfold dgetD
        rw [hm]
        rfl
      rw [hg, dset_dset_self]

theorem renParamStep_rel (flat : List (List String)) (ps : PyDict) (p : String) :
    RenamesOnly ps (renParamStep flat ps p) := by
  intro q
  unfold renParamStep
  by_cases he : (flat.filter (fun g => g.contains p)).isEmpty = true
  · rw [if_pos he]
    exact Or.inl rfl
  · rw [if_neg he]
    by_cases hq : q = p
    · subst hq
      exact Or.inr ⟨_, dfind?_dset_self _ _ _⟩
    · exact Or.inl (dfind?_dset_ne _ _ _ _ hq)

theorem renames_param_fold_rel (flat : List (List String)) :
    ∀ (ks : List String) (ps acc : PyDict), RenamesOnly ps acc →
      RenamesOnly ps (ks.foldl (renParamStep flat) acc) := by
  intro ks
  induction ks with
  | nil => intro ps acc h; exact h
  | cons k rest ih =>
    intro ps acc h
    rw [List.foldl_cons]
    exact ih ps _ (RenamesOnly_trans ps acc _ h (renParamStep_rel flat acc k))

theorem ebind_ok_inv {α β : Type} (e : Except PyErr α) (f : α → Except PyErr β)
    (b : β) (h : (e >>= f) = .ok b) : ∃ a, e = .ok a ∧ f a = .ok b := by
  cases e with
  | ok a => exact ⟨a, rfl, h⟩
  | error err =>
    exact absurd h (by simp [Bind.bind, Except.bind])

theorem applyRenamesItem_rel (ps : PyDict) (item : Val) (ps' : PyDict)
    (h : applyRenamesItem ps item = .ok ps') : RenamesOnly ps ps' := by
  unfold applyRenamesItem at h
  by_cases hr : truthy (dgetD (asDict item) "renames" Val.vnone) = true
  · rw [if_pos hr] at h
    cases hm : dgetD (asDict item) "renames" Val.vnone with
    | vdict rd =>
      rw [hm] at h
      have hx : Except.ok ((dictKeys ps).foldl (renParamStep (renamesGroups rd)) ps)
          = Except.ok ps' := h
      cases hx
      exact renames_param_fold_rel (renamesGroups rd) (dictKeys ps) ps ps
        (RenamesOnly_refl ps)
    | vnone => rw [hm] at h; exact absurd h (by simp [throw, throwThe, MonadExceptOf.throw])
    | vbool b => rw [hm] at h; exact absurd h (by simp [throw, throwThe, MonadExceptOf.throw])
    | vint n => rw [hm] at h; exact absurd h (by simp [throw, throwThe, MonadExceptOf.throw])
    | vrat q => rw [hm] at h; exact absurd h (by simp [throw, throwThe, MonadExceptOf.throw])
    | vstr s => rw [hm] at h; exact absurd h (by simp [throw, throwThe, MonadExceptOf.throw])
    | vlist l => rw [hm] at h; exact absurd h (by simp [throw, throwThe, MonadExceptOf.throw])
    | vclass n => rw [hm] at h; exact absurd h (by simp [throw, throwThe, MonadExceptOf.throw])
    | vfunc n => rw [hm] at h; exact absurd h (by simp [throw, throwThe, MonadExceptOf.throw])
  · rw [if_neg hr] at h
    have hx : Except.ok ps = Except.ok ps' := h
    cases hx
    exact RenamesOnly_refl ps

theorem renames_block_rel :
    ∀ (cs : List (String × Val)) (ps ps' : PyDict),
      cs.foldlM (fun ps' c => applyRenamesItem ps' c.2) ps = .ok ps' →
      RenamesOnly ps ps' := by
  intro cs
  induction cs with
  | nil =>
    intro ps ps' h
    have hx : Except.ok ps = Except.ok ps' := h
    cases hx
    exact RenamesOnly_refl ps
  | cons c rest ih =>
    intro ps ps' h
    rw [List.foldlM_cons] at h
    obtain ⟨mid, h1, h2⟩ := ebind_ok_inv _ _ _ h
    exact RenamesOnly_trans ps mid ps' (applyRenamesItem_rel ps c.2 mid h1)
      (ih mid ps' h2)

theorem renames_kinds_rel (blocks : PyDict) :
    ∀ (kinds : List String) (ps ps' : PyDict),
      kinds.foldlM (fun ps kind =>
        match dfind? blocks kind with
        | some (Val.vdict b) =>
          b.foldlM (fun (ps' : PyDict) (c : String × Val) => applyRenamesItem ps' c.2) ps
        | _ => pure ps) ps = .ok ps' →
      RenamesOnly ps ps' := by
  intro kinds
  induction kinds with
  | nil =>
    intro ps ps' h
    have hx : Except.ok ps = Except.ok ps' := h
    cases hx
    exact RenamesOnly_refl ps
  | cons k rest ih =>
    intro ps ps' h
    rw [List.foldlM_cons] at h
    obtain ⟨mid, h1, h2⟩ := ebind_ok_inv _ _ _ h
    refine RenamesOnly_trans ps mid ps' ?_ (ih mid ps' h2)
    cases hf : dfind? blocks k with
    | none =>
      rw [hf] at h1
      have hx : Except.ok ps = Except.ok mid := h1
      cases hx
      exact RenamesOnly_refl ps
    | some v =>
      rw [hf] at h1
      cases v with
      | vdict b => exact renames_block_rel b ps mid h1
      | vnone =>
        have hx : Except.ok ps = Except.ok mid := h1
        cases hx
        exact RenamesOnly_refl ps
      | vbool x =>
        have hx : Except.ok ps = Except.ok mid := h1
        cases hx
        exact RenamesOnly_refl ps
      | vint x =>
        have hx : Except.ok ps = Except.ok mid := h1
        cases hx
        exact RenamesOnly_refl ps
      | vrat x =>
        have hx : Except.ok ps = Except.ok mid := h1
        cases hx
        exact RenamesOnly_refl ps
      | vstr x =>
        have hx : Except.ok ps = Except.ok mid := h1
        cases hx
        exact RenamesOnly_refl ps
      | vlist x =>
        have hx : Except.ok ps = Except.ok mid := h1
        cases hx
        exact RenamesOnly_refl ps
      | vclass x =>
        have hx : Except.ok ps = Except.ok mid := h1
        cases hx
        exact RenamesOnly_refl ps
      | vfunc x =>
        have hx : Except.ok ps = Except.ok mid := h1
        cases hx
        exact RenamesOnly_refl ps

theorem renamesStage_rel (blocks ps ps' : PyDict)
    (h : renamesStage blocks ps = .ok ps') : RenamesOnly ps ps' :=
  renames_kinds_rel blocks ["theory", "likelihood"] ps ps' h

/-- A registry knowing one likelihood `lik1` whose defaults declare the type
tags `["tyB", "tyA"]`. -/
def regTy : Registry where
  getDefaultInfo := fun kind name _ _ _ =>
    if kind = "likelihood" ∧ name = "lik1" then
      .ok ([("type", Val.vlist [Val.vstr "tyB", Val.vstr "tyA"])], [])
    else .error .importError
  extClassDefaultInfo := fun _ _ _ => .error .importError
  baseClassDefaults := fun _ => []
  resolveClass := fun _ _ _ _ => .error .importError

/-- Raw config: `lik1` plus a user params block that itself defines a parameter
named like the aggregated chi-squared parameter of tag `tyA`. -/
def xChi : PyDict :=
  [("likelihood", Val.vdict [("lik1", Val.vnone)]),
   ("params", Val.vdict [("chi2__tyA", Val.vdict [("derived", Val.vbool false)])])]

/-- The resolution of `xChi`: the user's `chi2__tyA` record is overwritten by
the aggregated record, and the tags are processed in sorted order (`tyA` before
`tyB` although the defaults list `tyB` first). -/
def uChi : PyDict :=
  [("likelihood", Val.vdict [("lik1", Val.vdict
      [("type", Val.vlist [Val.vstr "tyB", Val.vstr "tyA"])])]),
   ("params", Val.vdict
     [("chi2__tyA", Val.vdict [("latex", Val.vstr "\\chi^2_\x7b\\rm tyA\x7d"),
        ("derived", Val.vbool true)]),
      ("chi2__tyB", Val.vdict [("latex", Val.vstr "\\chi^2_\x7b\\rm tyB\x7d"),
        ("derived", Val.vbool true)])])]

/-- C10: for every type tag `t` of the resolved likelihood block, the
aggregated chi-squared stage assigns the parameter named `get_chi2_name t` to
the record `{latex: get_chi2_label t, derived: True}`, unconditionally
overwriting any parameter of that name in the merged params (conjunct 1, for
arbitrary prior contents `param_info`); the subsequent rename-aliasing stage
can only touch a record's `renames` entry, so the assigned `latex`/`derived`
values reach the resolved params block (conjunct 2); concretely, resolving a
config whose user params block defines `chi2__tyA: {derived: False}` against a
likelihood of type tags `["tyB", "tyA"]` yields the aggregated records for
`tyA` and `tyB` in sorted order, the user's record being overwritten
(conjuncts 3-5). -/
theorem C10_aggregated_chi2 (param_info : PyDict) (types : List String)
    (t : String) (blocks ps' : PyDict) (ht : t ∈ types)
    (hrs : renamesStage blocks (add_aggregated_chi2_params param_info types)
      = .ok ps') :
    dfind? (add_aggregated_chi2_params param_info types) (get_chi2_name t)
      = some (chi2Record t) ∧
    (∃ r, dfind? ps' (get_chi2_name t) = some (Val.vdict r) ∧
      dfind? r "latex" = some (Val.vstr (get_chi2_label t)) ∧
      dfind? r "derived" = some (Val.vbool true)) ∧
    update_info regTy xChi = .ok uChi ∧
    dgetD (asDict (dgetD xChi "params" Val.vnone)) "chi2__tyA" Val.vnone
      = Val.vdict [("derived", Val.vbool false)] ∧
    dgetD (asDict (dgetD uChi "params" Val.vnone)) "chi2__tyA" Val.vnone
      = chi2Record "tyA" := by
  have h1 : dfind? (add_aggregated_chi2_params param_info types) (get_chi2_name t)
      = some (chi2Record t) := add_aggregated_lookup param_info types t ht
  refine ⟨h1, ?_, rfl, rfl, rfl⟩
  rcases renamesStage_rel blocks _ ps' hrs (get_chi2_name t) with he | ⟨lv, he⟩
  · rw [h1] at he
    exact ⟨[("latex", Val.vstr (get_chi2_label t)), ("derived", Val.vbool true)],
      he, rfl, rfl⟩
  · have hg : asDict (dgetD (add_aggregated_chi2_params param_info types)
        (get_chi2_name t) (Val.vdict []))
        = [("latex", Val.vstr (get_chi2_label t)), ("derived", Val.vbool true)] := by
      unfold dgetD
      rw [h1]
      rfl
    rw [hg] at he
    exact ⟨dset [("latex", Val.vstr (get_chi2_label t)),
      ("derived", Val.vbool true)] "renames" lv, he, rfl, rfl⟩

theorem C10_aggregated_chi2_witness :
    dfind? (add_aggregated_chi2_params [] ["ty"]) (get_chi2_name "ty")
      = some (chi2Record "ty") ∧
    (∃ r, dfind? (add_aggregated_chi2_params [] ["ty"]) (get_chi2_name "ty")
      = some (Val.vdict r) ∧
      dfind? r "latex" = some (Val.vstr (get_chi2_label "ty")) ∧
      dfind? r "derived" = some (Val.vbool true)) ∧
    update_info regTy xChi = .ok uChi ∧
    dgetD (asDict (dgetD xChi "params" Val.vnone)) "chi2__tyA" Val.vnone
      = Val.vdict [("derived", Val.vbool false)] ∧
    dgetD (asDict (dgetD uChi "params" Val.vnone)) "chi2__tyA" Val.vnone
      = chi2Record "tyA" :=
  C10_aggregated_chi2 [] ["ty"] "ty" [] (add_aggregated_chi2_params [] ["ty"])
    (by decide) rfl

/-- C8 counterexample: `get_preferred_old_values` does not leave the old
resolved config unchanged — the `component_path` entry of the component `A` is
gone from the returned state of `info_old`. -/
theorem C8_mutation_counterexample :
    get_preferred_old_values regAllFail oldC8
      = .ok ([], [("likelihood", Val.vdict [("A", Val.vdict [])])]) ∧
    [("likelihood", Val.vdict [("A", Val.vdict [])])] ≠ oldC8 :=
  ⟨rfl, by decide⟩

/-- C9 counterexample: a registry lookup failure raised while fetching a
component's resume-preference ignore set is NOT propagated by
`is_equal_info(old, new, strict=False)`: with a registry whose every lookup
fails with `ImportError`, the call still returns the boolean `true`. -/
theorem C9_swallow_counterexample :
    is_equal_info regAllFail likA likA false [] = .ok true := rfl
